import Mathlib

/-!
Verification development for the db-journey/migrate migration engine.

The Go sources are embedded shallowly:
* `file` package (version/file data model, set algebra, filesystem scanner) —
  `src/migrate.go` (file package section).
* `migrate` package (the `Handle` execution engine) — `src/migrate.go`
  (v2 `Handle` section).  Driver and filesystem I/O are abstracted into an
  `Env` of call results; every operation additionally returns the list of
  I/O `Event`s it performed, in order.
* the MySQL driver's directive script parser and transactional executor —
  `src/drivers/bash-driver/bash.go` (`parseMigration`, `migration.exec`).
  Byte slices are embedded as `List Char`, a script as its list of lines
  (Go splits on a newline before any other processing).

Machine integers: Go `uint64` versions are embedded as `Nat` with the
64-bit behaviour explicit where it is observable: `strconv.ParseUint`
rejecting an oversized filename version carries a `< 2 ^ 64` test, and the
`latest + 1` bump of `Create` is taken `% 2 ^ 64`.  `relativeN` (Go `int`,
64-bit) is embedded as `Int` with the wrapping negation (`negInt64`) and
the panicking slice expression (`goSliceUpTo`) made explicit.
-/

namespace Journey

/-- Go `direction.Direction` restricted to its two used values. -/
inductive Direction where
  | up
  | down
deriving DecidableEq, Repr

/-- `file.Version` (Go `uint64`). -/
abbrev Version := Nat

/-- `file.Versions.Contains`: linear scan membership test. -/
def Contains (versions : List Version) (version : Version) : Bool :=
  versions.any (fun v => v == version)

/-- `file.File`: one migration script on disk. -/
structure File where
  path : String
  fileName : String
  version : Version
  name : String
  content : String
  direction : Direction
deriving DecidableEq, Repr

/-- `file.MigrationFile`: the up/down pair for one version. -/
structure MigrationFile where
  version : Version
  upFile : Option File
  downFile : Option File
deriving DecidableEq, Repr

/-! ## MySQL driver: directive script parser and transactional executor

Embeds `parseDirective`, `parseMigration`, `writeStmt`, `scrollEmpty`,
`migration.exec`, `stmtExecErr` and `stmtCommitErr` from
`src/drivers/bash-driver/bash.go`.  A line of the script is a `List Char`
(the Go code works on `[]byte` lines produced by `bytes.Split(b, "\n")`).
The loops mutate an index `i` with in-loop jumps, so they are embedded with
an explicit fuel argument (one unit per Go loop iteration; every iteration
advances `i`, so `lines.length + 1` units suffice and all evaluations here
are on concrete scripts). -/

/-- A single line of a migration script (Go `[]byte` without the newline). -/
abbrev Line := List Char

/-- Go `unicode.IsSpace` on the whitespace bytes relevant to scripts. -/
def isSpaceChar (c : Char) : Bool :=
  c == ' ' || c == '\t' || c == '\n' || c == '\r' || c == '\x0b' || c == '\x0c'

/-- `bytes.TrimSpace` on a line. -/
def trimSpace (b : Line) : Line :=
  (b.dropWhile isSpaceChar).reverse.dropWhile isSpaceChar |>.reverse

/-- `bytes.HasPrefix(b, []byte("-- "))`. -/
def hasDashDashSpace (b : Line) : Bool :=
  match b with
  | '-' :: '-' :: ' ' :: _ => true
  | _ => false

/-- `bytes.HasSuffix(lines[i], []byte(";"))`. -/
def endsWithSemi (b : Line) : Bool :=
  match b.getLast? with
  | some c => c == ';'
  | none => false

/-- `parseDirective`: trims the line; if it does not start with `"-- "` the
noop directive (empty) is returned; otherwise `b[3 : len(b)-1]` — note the
source drops the FINAL character of the trimmed line as well. -/
def parseDirective (b : Line) : Line :=
  let b := trimSpace b
  if hasDashDashSpace b then (b.drop 3).dropLast else []

def directiveNotx : Line := ['N', 'O', 'T', 'X']

def directiveTxbegin : Line := ['T', 'X', 'B', 'E', 'G', 'I', 'N']

def directiveTxend : Line := ['T', 'X', 'E', 'N', 'D']

/-- `migrationSegment`. -/
structure MigrationSegment where
  statements : List Line
  offsets : List Nat
  tx : Bool
  txbegin : Nat
  txend : Nat
deriving DecidableEq, Repr

def emptySegment : MigrationSegment :=
  { statements := [], offsets := [], tx := false, txbegin := 0, txend := 0 }

/-- `migration`. -/
structure Migration where
  noTx : Bool
  segments : List MigrationSegment
deriving DecidableEq, Repr

/-- The while-loop inside `scrollEmpty`: advance `i` past empty lines. -/
def scrollEmptyLoop (lines : List Line) : Nat → Nat → Nat
  | 0, i => i
  | fuel + 1, i =>
    if i < lines.length && (trimSpace (lines.getD i [])).isEmpty then
      scrollEmptyLoop lines fuel (i + 1)
    else i

/-- `scrollEmpty`: next non-empty line index, `-1` if the scan stops on the
last line and it is empty. -/
def scrollEmpty (lines : List Line) (i : Nat) : Int :=
  let j := scrollEmptyLoop lines (lines.length + 1) i
  if j + 1 = lines.length && (trimSpace (lines.getD j [])).isEmpty then -1
  else (j : Int)

/-- The statement-collecting loop inside `writeStmt`: append lines (each with
a trailing newline, as `fmt.Fprintf(buf, "%s\n", ...)` does) until one ends
with a semicolon; returns the buffer and the final index. -/
def writeStmtLoop (lines : List Line) : Nat → Nat → Line → Line × Nat
  | 0, i, buf => (buf, i)
  | fuel + 1, i, buf =>
    if h : i < lines.length then
      let line := lines.get ⟨i, h⟩
      let buf := buf ++ line ++ ['\n']
      if endsWithSemi line then (buf, i)
      else writeStmtLoop lines fuel (i + 1) buf
    else (buf, i)

/-- `writeStmt`: records one statement (offset + text) into the segment and
returns the updated segment with the last consumed line index. -/
def writeStmt (stmt : MigrationSegment) (lines : List Line) (i0 : Nat) :
    MigrationSegment × Nat :=
  match scrollEmpty lines i0 with
  | .negSucc _ => (stmt, lines.length - 1)
  | .ofNat i =>
    let r := writeStmtLoop lines (lines.length + 1) i []
    ({ stmt with
        offsets := stmt.offsets ++ [i]
        statements := stmt.statements ++ [r.1] },
      r.2)

/-- The inner `for` loop of the `TXBEGIN` case of `parseMigration`: collect
statements until the lines run out, rejecting any directive that is neither
noop nor `TXEND`.  Note it re-examines the `TXBEGIN` line itself on its
first iteration. -/
def txbeginLoop (lines : List Line) :
    Nat → Nat → MigrationSegment → Except String (MigrationSegment × Nat)
  | 0, i, stmt => .ok (stmt, i)
  | fuel + 1, i, stmt =>
    if i < lines.length then
      let directive := parseDirective (lines.getD i [])
      if directive ≠ [] && directive ≠ directiveTxend then
        .error ("expected \x22TXEND\x22, got \x22" ++ String.mk directive ++
          "\x22 at line " ++ toString (i + 1))
      else
        let r := writeStmt stmt lines i
        txbeginLoop lines fuel (r.2 + 1) r.1
    else .ok (stmt, i)

/-- The top-level loop of `parseMigration` over the line index `i`. -/
def parseMigrationLoop (lines : List Line) :
    Nat → Nat → Migration → Except String Migration
  | 0, _, m => .ok m
  | fuel + 1, i, m =>
    if i < lines.length then
      if (trimSpace (lines.getD i [])).isEmpty then
        parseMigrationLoop lines fuel (i + 1) m
      else
        match scrollEmpty lines i with
        | .negSucc _ => .ok m
        | .ofNat i1 =>
          let stmt := emptySegment
          if ¬ hasDashDashSpace (trimSpace (lines.getD i1 [])) then
            let r := writeStmt stmt lines i1
            parseMigrationLoop lines fuel (r.2 + 1)
              { m with segments := m.segments ++ [r.1] }
          else
            match scrollEmpty lines i1 with
            | .negSucc _ => .ok m
            | .ofNat i2 =>
              let d := parseDirective (lines.getD i2 [])
              if d = directiveNotx then
                parseMigrationLoop lines fuel (i2 + 1) { m with noTx := true }
              else if d = directiveTxbegin then
                match txbeginLoop lines (lines.length + 1) i2
                    { emptySegment with tx := true, txbegin := i2 + 1 } with
                | .error e => .error e
                | .ok (stmt, iEnd) =>
                  parseMigrationLoop lines fuel (iEnd + 1)
                    { m with
                        noTx := true
                        segments := m.segments ++ [{ stmt with txend := iEnd + 1 }] }
              else
                parseMigrationLoop lines fuel (i2 + 1) m
    else .ok m

/-- `parseMigration` on a script already split into lines
(`bytes.Split(b, []byte("\n"))`). -/
def parseMigration (lines : List Line) : Except String Migration :=
  parseMigrationLoop lines (lines.length + 1) 0 { noTx := false, segments := [] }

/-- The database as the executor sees it: which statement texts fail, and
whether `Begin`/`Commit` fail.  The committed effects of an execution are
the list of statement texts that were executed inside a transaction that
committed (a rolled-back transaction contributes nothing). -/
structure ExecDB where
  execErr : Line → Option String
  beginErr : Option String
  commitErr : Option String

/-- `stmtExecErr` message. -/
def stmtExecErr (stmt : Line) (stmtOffset : Nat) (err : String) : String :=
  "Failed to exec SQL statement at line " ++ toString (stmtOffset + 1) ++
    ":\n" ++ String.mk stmt ++ "\nError:" ++ err

/-- `stmtCommitErr` message. -/
def stmtCommitErr (s : MigrationSegment) (err : String) : String :=
  "Failed to commit lines " ++ toString s.txbegin ++ "-" ++ toString s.txend ++
    ": " ++ err

/-- First failing statement of a list (with its line offset and the driver's
error), mirroring the `tx.Exec` loops. -/
def firstFailing (db : ExecDB) : List (Line × Nat) → Option (Line × Nat × String)
  | [] => none
  | p :: rest =>
    match db.execErr p.1 with
    | some e => some (p.1, p.2, e)
    | none => firstFailing db rest

/-- `migration.exec`, as the pair (error, committed statement texts).

Default mode (`noTx = false`): one transaction over every statement of every
segment; the first failing statement rolls the whole transaction back.

`noTx` mode: scan the segments in order and act on the FIRST one with
`tx = true` (as the source only ever `return`s from inside that branch):
run it in its own transaction and return; segments with `tx = false` are
skipped; if no segment has `tx = true`, nothing is executed at all. -/
def Migration.exec (m : Migration) (db : ExecDB) : Option String × List Line :=
  if ¬ m.noTx then
    match db.beginErr with
    | some e => (some e, [])
    | none =>
      let stmts := (m.segments.map (fun s => s.statements.zip s.offsets)).flatten
      match firstFailing db stmts with
      | some p => (some (stmtExecErr p.1 p.2.1 p.2.2), [])
      | none =>
        match db.commitErr with
        | some e => (some e, [])
        | none => (none, (m.segments.map (fun s => s.statements)).flatten)
  else
    match m.segments.find? (fun s => s.tx) with
    | none => (none, [])
    | some seg =>
      match db.beginErr with
      | some e => (some e, [])
      | none =>
        match firstFailing db (seg.statements.zip seg.offsets) with
        | some p => (some (stmtExecErr p.1 p.2.1 p.2.2), [])
        | none =>
          match db.commitErr with
          | some e => (some (stmtCommitErr seg e), [])
          | none => (none, seg.statements)

/-! ## Migration set algebra

Embeds `MigrationFiles.Pending`, `MigrationFiles.Applied` and
`MigrationFiles.Relative` from the `file` package.  The Go methods sort the
receiver slice in place (`sort.Sort(mf)` / `sort.Sort(sort.Reverse(mf))`
with `Less i j = mf[i].Version < mf[j].Version`); the embedding returns the
post-call receiver as the first component, the produced `Files` as the
second, and the Go `error` result as the third. -/

/-- The `sort.Interface` order on `MigrationFiles` (ascending by version). -/
def mfLE (a b : MigrationFile) : Prop := a.version ≤ b.version

/-- The `sort.Reverse` order on `MigrationFiles` (descending by version). -/
def mfGE (a b : MigrationFile) : Prop := b.version ≤ a.version

instance : DecidableRel mfLE := fun a b => Nat.decLe a.version b.version

instance : DecidableRel mfGE := fun a b => Nat.decLe b.version a.version

instance : IsTotal MigrationFile mfLE :=
  ⟨fun a b => Nat.le_total a.version b.version⟩

instance : IsTotal MigrationFile mfGE :=
  ⟨fun a b => Nat.le_total b.version a.version⟩

instance : IsTrans MigrationFile mfLE :=
  ⟨fun _ _ _ h1 h2 => Nat.le_trans h1 h2⟩

instance : IsTrans MigrationFile mfGE :=
  ⟨fun _ _ _ h1 h2 => Nat.le_trans h2 h1⟩

/-- `sort.Sort(mf)`: sort ascending by version. -/
def sortAsc (mf : List MigrationFile) : List MigrationFile :=
  List.insertionSort mfLE mf

/-- `sort.Sort(sort.Reverse(mf))`: sort descending by version. -/
def sortDesc (mf : List MigrationFile) : List MigrationFile :=
  List.insertionSort mfGE mf

/-- `MigrationFiles.Pending`: sort the receiver ascending, then emit the Up
file of every entry whose version is not applied and whose Up file is
present.  Result: (receiver after the call, files, error). -/
def Pending (mf : List MigrationFile) (versions : List Version) :
    List MigrationFile × List File × Option String :=
  let sorted := sortAsc mf
  let files := sorted.filterMap (fun migrationFile =>
    if ¬ Contains versions migrationFile.version then migrationFile.upFile
    else none)
  (sorted, files, none)

/-- `MigrationFiles.Applied`: sort the receiver descending, then emit the
Down file of every entry whose version is applied and whose Down file is
present.  Result: (receiver after the call, files, error). -/
def Applied (mf : List MigrationFile) (versions : List Version) :
    List MigrationFile × List File × Option String :=
  let sorted := sortDesc mf
  let files := sorted.filterMap (fun migrationFile =>
    if Contains versions migrationFile.version then migrationFile.downFile
    else none)
  (sorted, files, none)

/-- Go (64-bit) `int` negation: `-x` computed in two's complement, so
`-math.MinInt` wraps to `math.MinInt` itself. -/
def negInt64 (n : Int) : Int := (-n + 2 ^ 63) % 2 ^ 64 - 2 ^ 63

/-- The Go slice expression `files[:n]`: the first `n` elements when
`0 ≤ n ≤ len(files)`, and a runtime panic (modelled as `none`) for a
negative bound.  (An `n` above the length cannot reach the slice in
`Relative` because of the preceding clamp.) -/
def goSliceUpTo (files : List File) (n : Int) : Option (List File) :=
  if 0 ≤ n ∧ n ≤ (files.length : Int) then some (files.take n.toNat)
  else none

/-- `MigrationFiles.Relative`: `0` steps is an empty, error-free result;
positive steps take from `Pending`, negative steps negate and take from
`Applied`; the count is clamped to the available length before slicing.
The negation is the wrapping 64-bit one, so `relativeN = -2^63` stays
negative, survives the clamp, and makes the final slice expression panic
(the `none` result). -/
def Relative (mf : List MigrationFile) (relativeN : Int)
    (versions : List Version) :
    Option (List MigrationFile × List File × Option String) :=
  if relativeN > 0 then
    let p := Pending mf versions
    let n := if relativeN > (p.2.1.length : Int) then (p.2.1.length : Int)
      else relativeN
    (goSliceUpTo p.2.1 n).map (fun fs => (p.1, fs, p.2.2))
  else if relativeN < 0 then
    let relativeN := negInt64 relativeN
    let p := Applied mf versions
    let n := if relativeN > (p.2.1.length : Int) then (p.2.1.length : Int)
      else relativeN
    (goSliceUpTo p.2.1 n).map (fun fs => (p.1, fs, p.2.2))
  else
    some (mf, [], none)

/-! ## Filesystem scanner

Embeds `parseFilenameSchema` and `ReadMigrationFiles` from the `file`
package.  A directory listing is the `ioutil.ReadDir` result: either an
error or the list of entry names (as `List Char`).  The filename pattern is
the compiled regex `^([0-9]+)_(.*)\.(up|down)\.EXT(?:\.tpl)?$` for the
driver's literal extension `EXT`; since the version group and the tail are
anchored and fixed once the branch is chosen, the greedy `(.*)` picks the
longest name, i.e. the shortest matching tail, which the decomposition
below implements (the four possible tails are tried shortest first).
`strconv.ParseUint(..., 10, 0)` fails on values `≥ 2^64`, in which case the
entry is skipped like any non-matching name. -/

/-- Digit-run to number, as `strconv.ParseUint` on the matched group. -/
def digitsToNat (digits : List Char) : Nat :=
  digits.foldl (fun acc c => acc * 10 + (c.toNat - '0'.toNat)) 0

/-- Strip a literal tail from a name, if present. -/
def stripTail (l tail : List Char) : Option (List Char) :=
  if tail.isSuffixOf l then some (l.take (l.length - tail.length)) else none

/-- `parseFilenameSchema`: version, name and direction of a filename, or
`none` when the name does not match the pattern (or the version does not
fit in a `uint64`). -/
def parseFilenameSchema (ext : List Char) (filename : List Char) :
    Option (Version × List Char × Direction) :=
  let digits := filename.takeWhile Char.isDigit
  if digits.isEmpty then none
  else
    match filename.dropWhile Char.isDigit with
    | '_' :: rest =>
      let parsed : Option (List Char × Direction) :=
        match stripTail rest (['.', 'u', 'p', '.'] ++ ext) with
        | some name => some (name, .up)
        | none =>
          match stripTail rest (['.', 'd', 'o', 'w', 'n', '.'] ++ ext) with
          | some name => some (name, .down)
          | none =>
            match stripTail rest
                (['.', 'u', 'p', '.'] ++ ext ++ ['.', 't', 'p', 'l']) with
            | some name => some (name, .up)
            | none =>
              match stripTail rest
                  (['.', 'd', 'o', 'w', 'n', '.'] ++ ext ++
                    ['.', 't', 'p', 'l']) with
              | some name => some (name, .down)
              | none => none
      match parsed with
      | none => none
      | some (name, d) =>
        let v := digitsToNat digits
        if v < 2 ^ 64 then some (v, name, d) else none
    | _ => none

/-- `tmpFile` of `ReadMigrationFiles`. -/
structure TmpFile where
  version : Version
  name : List Char
  filename : List Char
  d : Direction
deriving DecidableEq, Repr

/-- The `error` values `ReadMigrationFiles` can produce, with their data. -/
inductive ScanError where
  | unreadable (msg : String)
  | duplicate (version : Version) (first second : List Char)
deriving DecidableEq, Repr

/-- First pass of `ReadMigrationFiles`: parse every entry, ignore
non-matching names, and fail on a second file for an already-seen
(version, direction) pair, reporting both filenames. -/
def scanTmpFiles (ext : List Char) :
    List (List Char) → List TmpFile → Except ScanError (List TmpFile)
  | [], acc => .ok acc
  | e :: rest, acc =>
    match parseFilenameSchema ext e with
    | none => scanTmpFiles ext rest acc
    | some (v, n, d) =>
      match acc.find? (fun t => t.version == v && t.d == d) with
      | some existing => .error (.duplicate v existing.filename e)
      | none =>
        scanTmpFiles ext rest
          (acc ++ [{ version := v, name := n, filename := e, d := d }])

/-- A `file.File` as the scanner constructs it (content left empty). -/
def scanFile (path : String) (filename name : List Char) (version : Version)
    (d : Direction) : File :=
  { path := path, fileName := String.mk filename, version := version,
    name := String.mk name, content := "", direction := d }

/-- The `migrationFile` value one iteration of the grouping loop builds:
the entry fills its direction's slot, and the first entry of the same
version and opposite direction (searched over the whole list) fills the
other slot. -/
def buildHead (path : String) (all : List TmpFile) (t : TmpFile) :
    MigrationFile :=
  match t.d with
  | .up =>
    { version := t.version
      upFile := some (scanFile path t.filename t.name t.version .up)
      downFile :=
        (all.find? (fun t2 =>
          t2.version == t.version && t2.d == Direction.down)).map
          (fun t2 => scanFile path t2.filename t2.name t.version .down) }
  | .down =>
    { version := t.version
      downFile := some (scanFile path t.filename t.name t.version .down)
      upFile :=
        (all.find? (fun t2 =>
          t2.version == t.version && t2.d == Direction.up)).map
          (fun t2 => scanFile path t2.filename t2.name t.version .up) }

/-- Second pass of `ReadMigrationFiles`: group the parsed entries by
version, skipping versions already grouped (`parsedVersions`). -/
def buildMigrationFilesLoop (path : String) (all : List TmpFile) :
    List TmpFile → List Version → List MigrationFile
  | [], _ => []
  | t :: rest, parsedVersions =>
    if parsedVersions.contains t.version then
      buildMigrationFilesLoop path all rest parsedVersions
    else
      buildHead path all t ::
        buildMigrationFilesLoop path all rest (t.version :: parsedVersions)

/-- `ReadMigrationFiles`: scan a directory listing into the sorted
collection of `MigrationFile`s.  (The Go `default:` branch that rejects an
unsupported direction value is unreachable: `parseFilenameSchema` only
produces the two direction values, which the embedded `Direction` type
captures exactly.) -/
def ReadMigrationFiles (path : String) (ext : List Char)
    (dirListing : Except String (List (List Char))) :
    Except ScanError (List MigrationFile) :=
  match dirListing with
  | .error e => .error (.unreadable e)
  | .ok entries =>
    match scanTmpFiles ext entries [] with
    | .error e => .error e
    | .ok tmpFiles =>
      .ok (sortAsc (buildMigrationFilesLoop path tmpFiles tmpFiles []))

/-! ## Execution engine (`Handle`)

Embeds the v2 `migrate` package.  External collaborators (the driver, the
filesystem, the clock, the `context`) are abstracted into an `Env` of call
results; each operation returns its Go result, the post-call `Handle`
state, and the chronological list of I/O `Event`s it performed.  The
`select` that races the background lock-wait against `ctx.Done()` is
resolved deterministically: a canceled context wins the race (the spawned
lock attempt is still counted as initiated). -/

/-- The clock reading, as the fields of the Go `Format("20060102150405")`
pattern. -/
structure GoTime where
  year : Nat
  month : Nat
  day : Nat
  hour : Nat
  min : Nat
  sec : Nat
deriving DecidableEq, Repr

/-- `time.Format("20060102150405")` followed by `strconv.ParseUint`: the
14-digit decimal timestamp as a number. -/
def GoTime.format14 (t : GoTime) : Nat :=
  ((((t.year * 100 + t.month) * 100 + t.day) * 100 + t.hour) * 100 + t.min) *
      100 + t.sec

/-- One I/O action performed by a `Handle` operation. -/
inductive Event where
  | fsScan
  | drvVersionsCall
  | drvVersionCall
  | drvMigrateCall (f : File)
  | hookCall (name : String) (f : File)
  | drvLockCall
  | drvUnlockCall
  | drvCloseCall
  | fsWrite (filename : String)
deriving DecidableEq, Repr

/-- Results of every external call an operation may make. -/
structure Env where
  readDir : Except String (List MigrationFile)
  drvVersions : Except String (List Version)
  drvVersion : Except String Version
  drvMigrateRes : File → Option String
  drvLockRes : Option String
  drvUnlockRes : Option String
  drvCloseRes : Option String
  ctxCanceled : Bool
  now : GoTime
  filenameExtension : String
  fileTemplate : String
  writeRes : String → Option String

/-- `Handle`: driver connection identity is implicit; the engine state is
the lock flag, the sticky fatal error, and the configured hooks. -/
structure Handle where
  migrationsPath : String
  locked : Bool
  fatalErr : Option String
  preHook : Option (File → Option String)
  postHook : Option (File → Option String)

/-- `runHookIfNotNil`: run a hook if configured, wrapping its error. -/
def runHookIfNotNil (hook : Option (File → Option String)) (name : String)
    (f : File) : Option String × List Event :=
  match hook with
  | none => (none, [])
  | some h =>
    match h f with
    | none => (none, [Event.hookCall name f])
    | some err =>
      (some (name ++ "-hook for migration \x22" ++ f.fileName ++
        "\x22 failed: " ++ err), [Event.hookCall name f])

/-- `Handle.lock`: fail fast on the sticky fatal error; be reentrant when
already locked (second component `false`: the returned unlock closure is a
no-op); otherwise race the lock-wait against cancellation.  The second
component records whether the lock was acquired by this call. -/
def Handle.lock (m : Handle) (env : Env) :
    Except String Unit × Bool × Handle × List Event :=
  match m.fatalErr with
  | some e => (.error e, false, m, [])
  | none =>
    if m.locked then (.ok (), false, m, [])
    else if env.ctxCanceled then
      (.error "context canceled", false, m, [Event.drvLockCall])
    else
      match env.drvLockRes with
      | some e => (.error e, false, m, [Event.drvLockCall])
      | none => (.ok (), true, { m with locked := true }, [Event.drvLockCall])

/-- `Handle.unlock`: on driver unlock success clear the lock flag; on
failure close the driver connection and set the sticky fatal error. -/
def Handle.unlock (m : Handle) (env : Env) : Handle × List Event :=
  match env.drvUnlockRes with
  | none => ({ m with locked := false }, [Event.drvUnlockCall])
  | some err =>
    ({ m with
        fatalErr := some ("connection closed, this handle is no longer " ++
          "usable - failed to unlock database after last session: " ++ err) },
      [Event.drvUnlockCall, Event.drvCloseCall])

/-- `Handle.locking`: lock, run the body, and run the unlock closure the
lock call returned (a no-op for a reentrant acquisition). -/
def Handle.locking (m : Handle) (env : Env)
    (f : Handle → Except String Unit × Handle × List Event) :
    Except String Unit × Handle × List Event :=
  match m.lock env with
  | (.error e, _, m1, ev1) => (.error e, m1, ev1)
  | (.ok _, acquired, m1, ev1) =>
    let r := f m1
    if acquired then
      let u := r.2.1.unlock env
      (r.1, u.1, ev1 ++ r.2.2 ++ u.2)
    else
      (r.1, r.2.1, ev1 ++ r.2.2)

/-- `Handle.readFilesAndGetVersions`: re-scan the migrations directory and
re-fetch the applied versions. -/
def Handle.readFilesAndGetVersions (_m : Handle) (env : Env) :
    Except String (List MigrationFile × List Version) × List Event :=
  match env.readDir with
  | .error e => (.error e, [Event.fsScan])
  | .ok files =>
    match env.drvVersions with
    | .error e => (.error e, [Event.fsScan, Event.drvVersionsCall])
    | .ok versions => (.ok (files, versions), [Event.fsScan, Event.drvVersionsCall])

/-- `Handle.drvMigrate`: the per-file step.  A canceled context aborts
before any call, naming the version about to be applied; then pre-hook,
driver `Migrate`, post-hook, each aborting the rest on failure. -/
def Handle.drvMigrate (m : Handle) (env : Env) (f : File) :
    Except String Unit × List Event :=
  if env.ctxCanceled then
    (.error ("interrupted before applying version " ++ toString f.version ++
      ": context canceled"), [])
  else
    let pre := runHookIfNotNil m.preHook "pre" f
    match pre.1 with
    | some err => (.error err, pre.2)
    | none =>
      match env.drvMigrateRes f with
      | some err => (.error err, pre.2 ++ [Event.drvMigrateCall f])
      | none =>
        let post := runHookIfNotNil m.postHook "post" f
        match post.1 with
        | some err => (.error err, pre.2 ++ [Event.drvMigrateCall f] ++ post.2)
        | none => (.ok (), pre.2 ++ [Event.drvMigrateCall f] ++ post.2)

/-- The shared iteration of `Up`/`Down`/`Migrate`: apply each file in
order, stopping at the first failing step. -/
def Handle.runSeq (m : Handle) (env : Env) : List File → Except String Unit × List Event
  | [] => (.ok (), [])
  | f :: rest =>
    match m.drvMigrate env f with
    | (.ok _, ev) =>
      let r := m.runSeq env rest
      (r.1, ev ++ r.2)
    | (.error e, ev) => (.error e, ev)

/-- `Handle.Up`. -/
def Handle.Up (m : Handle) (env : Env) :
    Except String Unit × Handle × List Event :=
  m.locking env (fun m1 =>
    match m1.readFilesAndGetVersions env with
    | (.error e, ev) => (.error e, m1, ev)
    | (.ok (files, versions), ev) =>
      let r := m1.runSeq env (Pending files versions).2.1
      (r.1, m1, ev ++ r.2))

/-- `Handle.Down`. -/
def Handle.Down (m : Handle) (env : Env) :
    Except String Unit × Handle × List Event :=
  m.locking env (fun m1 =>
    match m1.readFilesAndGetVersions env with
    | (.error e, ev) => (.error e, m1, ev)
    | (.ok (files, versions), ev) =>
      let r := m1.runSeq env (Applied files versions).2.1
      (r.1, m1, ev ++ r.2))

/-- `Handle.Migrate`.  When `Relative` panics (negative slice bound at
`relativeN = -2^63`), the Go process unwinds through the deferred unlock
and dies; the model collapses that crash into an error result with no
further events. -/
def Handle.Migrate (m : Handle) (env : Env) (relativeN : Int) :
    Except String Unit × Handle × List Event :=
  m.locking env (fun m1 =>
    match m1.readFilesAndGetVersions env with
    | (.error e, ev) => (.error e, m1, ev)
    | (.ok (files, versions), ev) =>
      match Relative files relativeN versions with
      | none =>
        (.error "panic: runtime error: slice bounds out of range", m1, ev)
      | some rel =>
        let r := m1.runSeq env rel.2.1
        (r.1, m1, ev ++ r.2))

/-- `Handle.Redo`: `Migrate(-1)` then `Migrate(+1)`, inside one lock. -/
def Handle.Redo (m : Handle) (env : Env) :
    Except String Unit × Handle × List Event :=
  m.locking env (fun m1 =>
    match m1.Migrate env (-1) with
    | (.error e, m2, ev) => (.error e, m2, ev)
    | (.ok _, m2, ev) =>
      let r := m2.Migrate env 1
      (r.1, r.2.1, ev ++ r.2.2))

/-- `Handle.Reset`: `Down` then `Up`, inside one lock. -/
def Handle.Reset (m : Handle) (env : Env) :
    Except String Unit × Handle × List Event :=
  m.locking env (fun m1 =>
    match m1.Down env with
    | (.error e, m2, ev) => (.error e, m2, ev)
    | (.ok _, m2, ev) =>
      let r := m2.Up env
      (r.1, r.2.1, ev ++ r.2.2))

/-- `Handle.Version`: lock, read the driver's current version, unlock. -/
def Handle.Version (m : Handle) (env : Env) :
    Except String Version × Handle × List Event :=
  match m.lock env with
  | (.error e, _, m1, ev1) => (.error e, m1, ev1)
  | (.ok _, acquired, m1, ev1) =>
    let res := env.drvVersion
    if acquired then
      let u := m1.unlock env
      (res, u.1, ev1 ++ [Event.drvVersionCall] ++ u.2)
    else (res, m1, ev1 ++ [Event.drvVersionCall])

/-- `Handle.Versions`: lock, read the applied versions, unlock. -/
def Handle.Versions (m : Handle) (env : Env) :
    Except String (List Journey.Version) × Handle × List Event :=
  match m.lock env with
  | (.error e, _, m1, ev1) => (.error e, m1, ev1)
  | (.ok _, acquired, m1, ev1) =>
    let res := env.drvVersions
    if acquired then
      let u := m1.unlock env
      (res, u.1, ev1 ++ [Event.drvVersionsCall] ++ u.2)
    else (res, m1, ev1 ++ [Event.drvVersionsCall])

/-- `Handle.PendingMigrations`: lock, re-scan, compute `Pending`, unlock. -/
def Handle.PendingMigrations (m : Handle) (env : Env) :
    Except String (List File) × Handle × List Event :=
  match m.lock env with
  | (.error e, _, m1, ev1) => (.error e, m1, ev1)
  | (.ok _, acquired, m1, ev1) =>
    let body : Except String (List File) × List Event :=
      match m1.readFilesAndGetVersions env with
      | (.error e, ev) => (.error e, ev)
      | (.ok (files, versions), ev) => (.ok (Pending files versions).2.1, ev)
    if acquired then
      let u := m1.unlock env
      (body.1, u.1, ev1 ++ body.2 ++ u.2)
    else (body.1, m1, ev1 ++ body.2)

/-- `getFileForDirection`. -/
def getFileForDirection (m : MigrationFile) (d : Direction) : Option File :=
  match d with
  | .up => m.upFile
  | .down => m.downFile

/-- The version-lookup loop of `migrateVersion`: stop at the first entry
with the requested version and take its slot for the direction (`none` if
that slot is empty — the Go loop `break`s and falls through to the
missing-file error). -/
def findMigration : List MigrationFile → Version → Direction → Option File
  | [], _, _ => none
  | mf :: rest, v, d =>
    if mf.version = v then getFileForDirection mf d
    else findMigration rest v d

/-- `direction.Direction.String()`. -/
def Direction.str : Direction → String
  | .up => "up"
  | .down => "down"

/-- `Handle.migrateVersion`: validate the single target version, then run
exactly the matching file (the direction-validity guard of the source is
vacuous for the two-valued `Direction`). -/
def Handle.migrateVersion (m : Handle) (env : Env) (version : Journey.Version)
    (d : Direction) : Except String Unit × Handle × List Event :=
  m.locking env (fun m1 =>
    match m1.readFilesAndGetVersions env with
    | (.error e, ev) => (.error e, m1, ev)
    | (.ok (files, versions), ev) =>
      if d = .up ∧ Contains versions version then
        (.error ("version " ++ toString version ++ " is already applied"),
          m1, ev)
      else if d = .down ∧ ¬ Contains versions version then
        (.error ("version " ++ toString version ++ " is not applied"), m1, ev)
      else
        match findMigration files version d with
        | some migration =>
          let r := m1.drvMigrate env migration
          (r.1, m1, ev ++ r.2)
        | none =>
          (.error ("no \x60" ++ d.str ++ "\x60 migration file for version " ++
            toString version), m1, ev))

/-- `Handle.ApplyVersion`. -/
def Handle.ApplyVersion (m : Handle) (env : Env) (version : Journey.Version) :
    Except String Unit × Handle × List Event :=
  m.migrateVersion env version .up

/-- `Handle.RollbackVersion`. -/
def Handle.RollbackVersion (m : Handle) (env : Env) (version : Journey.Version) :
    Except String Unit × Handle × List Event :=
  m.migrateVersion env version .down

/-- `Handle.Close`: close the driver connection (no fatal-error check). -/
def Handle.Close (m : Handle) (env : Env) :
    Except String Unit × Handle × List Event :=
  (match env.drvCloseRes with
    | none => .ok ()
    | some e => .error e,
    m, [Event.drvCloseCall])

/-- The version bump of `Create`: if the latest scanned version is not
below the clock candidate, use latest + 1 — computed in `uint64`, so a
latest of `2^64 - 1` (admitted by the scanner) wraps the bump to 0. -/
def createVersion (files : List MigrationFile) (candidate : Version) :
    Version :=
  match files.getLast? with
  | none => candidate
  | some latest =>
    if latest.version ≥ candidate then (latest.version + 1) % 2 ^ 64
    else candidate

/-- `Handle.Create`: scan (and fetch versions), compute the version, and
write the Up and Down files.  Note the source performs NO fatal-error check
and NO locking here, and leaves `File.Version` at its zero value in the
two descriptors it returns. -/
def Handle.Create (m : Handle) (env : Env) (name : String) :
    Except String MigrationFile × Handle × List Event :=
  match m.readFilesAndGetVersions env with
  | (.error e, ev) => (.error e, m, ev)
  | (.ok (files, _), ev) =>
    let name := name.replace " " "_"
    let version := createVersion files env.now.format14
    let upName := toString version ++ "_" ++ name ++ ".up." ++
      env.filenameExtension
    let downName := toString version ++ "_" ++ name ++ ".down." ++
      env.filenameExtension
    let upFile : File :=
      { path := m.migrationsPath
        fileName := upName
        version := 0
        name := name
        content := env.fileTemplate
        direction := .up }
    let downFile : File :=
      { path := m.migrationsPath
        fileName := downName
        version := 0
        name := name
        content := env.fileTemplate
        direction := .down }
    let mfile : MigrationFile :=
      { version := version, upFile := some upFile, downFile := some downFile }
    match env.writeRes upName with
    | some e => (.error e, m, ev ++ [Event.fsWrite upName])
    | none =>
      match env.writeRes downName with
      | some e => (.error e, m, ev ++ [Event.fsWrite upName, Event.fsWrite downName])
      | none => (.ok mfile, m, ev ++ [Event.fsWrite upName, Event.fsWrite downName])

/-! ## Shared example data -/

/-- Example up file for version 1. -/
def fU1 : File :=
  { path := "mig", fileName := "1_a.up.sql", version := 1, name := "a",
    content := "", direction := .up }

/-- Example down file for version 1. -/
def fD1 : File :=
  { path := "mig", fileName := "1_a.down.sql", version := 1, name := "a",
    content := "", direction := .down }

/-- Example up file for version 2. -/
def fU2 : File :=
  { path := "mig", fileName := "2_b.up.sql", version := 2, name := "b",
    content := "", direction := .up }

/-- Example down file for version 3. -/
def fD3 : File :=
  { path := "mig", fileName := "3_c.down.sql", version := 3, name := "c",
    content := "", direction := .down }

/-- An example scanned collection: versions 1 (both files), 2 (up only),
3 (down only). -/
def mfW : List MigrationFile :=
  [{ version := 1, upFile := some fU1, downFile := some fD1 },
   { version := 2, upFile := some fU2, downFile := none },
   { version := 3, upFile := none, downFile := some fD3 }]

/-- An example applied-version set. -/
def versW : List Version := [3, 1]

/-- An environment in which every external call succeeds. -/
def envOK : Env :=
  { readDir := .ok []
    drvVersions := .ok []
    drvVersion := .ok 0
    drvMigrateRes := fun _ => none
    drvLockRes := none
    drvUnlockRes := none
    drvCloseRes := none
    ctxCanceled := false
    now := { year := 2024, month := 5, day := 6, hour := 7, min := 8, sec := 9 }
    filenameExtension := "sql"
    fileTemplate := ""
    writeRes := fun _ => none }

/-- A handle in its initial (unlocked, unpoisoned, hook-free) state. -/
def freshH : Handle :=
  { migrationsPath := "mig", locked := false, fatalErr := none,
    preHook := none, postHook := none }

/-! ## C1: directive script execution -/

/-- The claim's scenario script: a NOTX directive and two TXBEGIN/TXEND
blocks, the second of which contains a failing statement. -/
def c1Script : List Line :=
  ["-- NOTX", "-- TXBEGIN", "CREATE TABLE a;", "-- TXEND",
   "-- TXBEGIN", "BAD;", "-- TXEND", ""].map String.toList

/-- What the source's parser actually produces for `c1Script`: no directive
recognised (`noTx = false`), the two statements as two plain untagged
segments. -/
def c1Parsed : Migration :=
  { noTx := false
    segments :=
      [{ statements := [String.toList "CREATE TABLE a;\n"], offsets := [2],
         tx := false, txbegin := 0, txend := 0 },
       { statements := [String.toList "BAD;\n"], offsets := [5],
         tx := false, txbegin := 0, txend := 0 }] }

/-- A database in which the second block's statement fails and everything
else succeeds. -/
def c1DB : ExecDB :=
  { execErr := fun s => if s = String.toList "BAD;\n" then some "boom" else none
    beginErr := none
    commitErr := none }

/-- C1: the claim (and the driver's own README and file template) says a
script with a `-- NOTX` directive and two TXBEGIN/TXEND blocks runs each
block as its own transaction, so a failure inside the second block leaves
the first block's effects committed.  The code disagrees: `parseDirective`
returns `b[3:len(b)-1]` of the trimmed line, dropping the final character,
so the literal line `-- NOTX` parses as the directive `NOT` and no
directive is ever recognised; `c1Script` is parsed with `noTx = false`
into two plain segments and executed as ONE implicit transaction, which
the failure in the second block rolls back entirely — the first block's
statement is NOT committed. -/
theorem directive_script_bug :
    parseDirective (String.toList "-- NOTX") = String.toList "NOT"
  ∧ parseMigration c1Script = .ok c1Parsed
  ∧ c1Parsed.noTx = false
  ∧ (c1Parsed.exec c1DB).1.isSome = true
  ∧ (c1Parsed.exec c1DB).2 = [] := by
  refine ⟨by decide, rfl, rfl, rfl, rfl⟩

/-! ## C2: Relative -/

theorem goSliceUpTo_of_bounds (files : List File) (n : Int) (h0 : 0 ≤ n)
    (hle : n ≤ (files.length : Int)) :
    goSliceUpTo files n = some (files.take n.toNat) := by
  simp only [goSliceUpTo]
  rw [if_pos ⟨h0, hle⟩]

theorem goSliceUpTo_neg (files : List File) (n : Int) (h : n < 0) :
    goSliceUpTo files n = none := by
  simp only [goSliceUpTo]
  rw [if_neg (fun hc => absurd hc.1 (by omega))]

theorem negInt64_of_bounds (n : Int) (h1 : -(2 ^ 63) < n) (h2 : n ≤ 2 ^ 63) :
    negInt64 n = -n := by
  simp only [negInt64]
  omega

theorem negInt64_minInt : negInt64 (-(2 ^ 63)) = -(2 ^ 63) := by
  simp only [negInt64]
  decide

/-- C2 counterexample: the claim says every `n < 0` yields the first
`min(|n|, |Applied(S)|)` entries of `Applied(S)` and that over-requesting
never produces an error.  At `n = -2^63` (the Go `int` minimum) the
source's negation `relativeN = -relativeN` wraps back to `-2^63`, the
clamp leaves it negative, and `files[:relativeN]` panics — the program
crashes instead of returning the clamped, error-free prefix (`none` is
the modelled panic). -/
theorem Relative_minInt_counterexample :
    ((-(2 ^ 63) : Int) < 0)
  ∧ Relative mfW (-(2 ^ 63)) versW = none := by
  refine ⟨by decide, ?_⟩
  have hng : ¬ ((-(2 ^ 63) : Int) > 0) := by decide
  have hlt : ((-(2 ^ 63) : Int) < 0) := by decide
  simp only [Relative, if_neg hng, if_pos hlt, negInt64_minInt]
  rw [if_neg (by omega :
    ¬ (-(2 ^ 63) : Int) > (((Applied mfW versW).2.1.length : Nat) : Int))]
  rw [goSliceUpTo_neg _ _ (by decide)]
  rfl

/-- C2 (amended): `Relative(0, S)` is empty and error-free; for
representable requests — `0 < n < 2^63` and `-2^63 < n < 0` — the result
is the first `min(|n|, available)` entries of `Pending(S)` resp.
`Applied(S)` with no error, silently clamped; at `n = -2^63`, however,
the wrapping negation leaves the count negative and the slice expression
panics instead of clamping. -/
theorem Relative_spec (mf : List MigrationFile) (versions : List Version) :
    (Relative mf 0 versions = some (mf, [], none))
  ∧ (∀ n : Int, 0 < n → n < 2 ^ 63 →
      Relative mf n versions =
        some ((Pending mf versions).1,
          (Pending mf versions).2.1.take
            (min n.toNat (Pending mf versions).2.1.length),
          none))
  ∧ (∀ n : Int, -(2 ^ 63) < n → n < 0 →
      Relative mf n versions =
        some ((Applied mf versions).1,
          (Applied mf versions).2.1.take
            (min (-n).toNat (Applied mf versions).2.1.length),
          none))
  ∧ Relative mf (-(2 ^ 63)) versions = none := by
  refine ⟨rfl, ?_, ?_, ?_⟩
  · intro n hn hn2
    have hgt : n > 0 := hn
    simp only [Relative, if_pos hgt]
    by_cases hc : n > (((Pending mf versions).2.1.length : Nat) : Int)
    · rw [if_pos hc,
        goSliceUpTo_of_bounds _ _ (by omega) (by omega)]
      have h1 : (((Pending mf versions).2.1.length : Nat) : Int).toNat =
          (Pending mf versions).2.1.length := by omega
      have h2 : min n.toNat (Pending mf versions).2.1.length =
          (Pending mf versions).2.1.length := by omega
      rw [h1, h2]
      rfl
    · rw [if_neg hc, goSliceUpTo_of_bounds _ _ (by omega) (by omega)]
      have h2 : min n.toNat (Pending mf versions).2.1.length = n.toNat := by
        omega
      rw [h2]
      rfl
  · intro n hn hn2
    have hng : ¬ n > 0 := by omega
    simp only [Relative, if_neg hng, if_pos hn2,
      negInt64_of_bounds n hn (by omega)]
    by_cases hc : -n > (((Applied mf versions).2.1.length : Nat) : Int)
    · rw [if_pos hc,
        goSliceUpTo_of_bounds _ _ (by omega) (by omega)]
      have h1 : (((Applied mf versions).2.1.length : Nat) : Int).toNat =
          (Applied mf versions).2.1.length := by omega
      have h2 : min (-n).toNat (Applied mf versions).2.1.length =
          (Applied mf versions).2.1.length := by omega
      rw [h1, h2]
      rfl
    · rw [if_neg hc, goSliceUpTo_of_bounds _ _ (by omega) (by omega)]
      have h2 : min (-n).toNat (Applied mf versions).2.1.length =
          (-n).toNat := by omega
      rw [h2]
      rfl
  · have hng : ¬ ((-(2 ^ 63) : Int) > 0) := by decide
    have hlt : ((-(2 ^ 63) : Int) < 0) := by decide
    simp only [Relative, if_neg hng, if_pos hlt, negInt64_minInt]
    rw [if_neg (by omega :
      ¬ (-(2 ^ 63) : Int) > (((Applied mf versions).2.1.length : Nat) : Int))]
    rw [goSliceUpTo_neg _ _ (by decide)]
    rfl

/-- C2 witness: the amended theorem applied at a concrete collection, for
an in-range positive request and an over-large (but representable)
negative request. -/
theorem Relative_spec_witness :
    ((0 : Int) < 2 ∧ (2 : Int) < 2 ^ 63 ∧
      Relative mfW 2 versW =
        some ((Pending mfW versW).1,
          (Pending mfW versW).2.1.take
            (min (2 : Int).toNat (Pending mfW versW).2.1.length),
          none))
  ∧ ((-(2 ^ 63) : Int) < -5 ∧ (-5 : Int) < 0 ∧
      Relative mfW (-5) versW =
        some ((Applied mfW versW).1,
          (Applied mfW versW).2.1.take
            (min (-(-5 : Int)).toNat (Applied mfW versW).2.1.length),
          none)) :=
  ⟨⟨by decide, by decide,
    (Relative_spec mfW versW).2.1 2 (by decide) (by decide)⟩,
   ⟨by decide, by decide,
    (Relative_spec mfW versW).2.2.1 (-5) (by decide) (by decide)⟩⟩

/-! ## C10: receiver effects of Pending/Applied -/

/-- C10: `Pending` leaves the receiver sorted ascending and `Applied`
leaves it sorted descending, in both cases a permutation (same multiset)
of the original collection, and both always return a nil error. -/
theorem pending_applied_frame (mf : List MigrationFile)
    (versions : List Version) :
    List.Perm (Pending mf versions).1 mf
  ∧ (Pending mf versions).1.Pairwise mfLE
  ∧ (Pending mf versions).2.2 = none
  ∧ List.Perm (Applied mf versions).1 mf
  ∧ (Applied mf versions).1.Pairwise mfGE
  ∧ (Applied mf versions).2.2 = none :=
  ⟨List.perm_insertionSort mfLE mf, List.sorted_insertionSort mfLE mf, rfl,
   List.perm_insertionSort mfGE mf, List.sorted_insertionSort mfGE mf, rfl⟩

/-! ## C3: algebra of Pending and Applied -/

/-- The `MigrationFile` data-model invariant (§3 of the spec): a present
slot file carries the entry's version and the direction of its slot. -/
def slotOK (m : MigrationFile) : Bool :=
  (match m.upFile with
    | none => true
    | some f => f.version == m.version && f.direction == Direction.up) &&
  (match m.downFile with
    | none => true
    | some f => f.version == m.version && f.direction == Direction.down)

theorem slotOK_up {m : MigrationFile} {f : File} (h : slotOK m = true)
    (hu : m.upFile = some f) : f.version = m.version ∧ f.direction = .up := by
  rw [slotOK, hu] at h
  simp only [Bool.and_eq_true, beq_iff_eq] at h
  exact h.1

theorem slotOK_down {m : MigrationFile} {f : File} (h : slotOK m = true)
    (hd : m.downFile = some f) :
    f.version = m.version ∧ f.direction = .down := by
  rw [slotOK, hd] at h
  simp only [Bool.and_eq_true, beq_iff_eq] at h
  exact h.2

theorem contains_iff (versions : List Version) (v : Version) :
    Contains versions v = true ↔ v ∈ versions := by
  simp only [Contains, List.any_eq_true, beq_iff_eq]
  exact ⟨fun ⟨x, hx, he⟩ => he ▸ hx, fun hv => ⟨v, hv, rfl⟩⟩

theorem pairwise_of_forall_mem {α : Type} {P : α → Prop} :
    ∀ {l : List α}, (∀ a ∈ l, P a) → l.Pairwise (fun a b => P a ∧ P b) := by
  intro l
  induction l with
  | nil => intro _; exact List.Pairwise.nil
  | cons a t ih =>
    intro h
    refine List.Pairwise.cons ?_ (ih fun x hx => h x (List.mem_cons_of_mem a hx))
    intro b hb
    exact ⟨h a (List.mem_cons_self a t), h b (List.mem_cons_of_mem a hb)⟩

theorem pairwise_filterMap_of_pairwise {α β : Type} {R : α → α → Prop}
    {S : β → β → Prop} (g : α → Option β)
    (h : ∀ a b, R a b → ∀ x, g a = some x → ∀ y, g b = some y → S x y) :
    ∀ {l : List α}, l.Pairwise R → (l.filterMap g).Pairwise S := by
  intro l hl
  induction hl with
  | nil => exact List.Pairwise.nil
  | @cons a t hhead _ ih =>
    rw [List.filterMap_cons]
    cases hg : g a with
    | none => exact ih
    | some x =>
      refine List.Pairwise.cons ?_ ih
      intro y hy
      obtain ⟨b, hb, hgb⟩ := List.mem_filterMap.mp hy
      exact h a b (hhead b hb) x hg y hgb

/-- The selection function of `Pending`. -/
theorem pending_select (versions : List Version) (a : MigrationFile)
    (f : File) :
    ((if ¬ Contains versions a.version then a.upFile else none) = some f) ↔
      (Contains versions a.version = false ∧ a.upFile = some f) := by
  by_cases hc : Contains versions a.version
  · simp [hc]
  · simp only [Bool.not_eq_true] at hc
    simp [hc]

/-- The selection function of `Applied`. -/
theorem applied_select (versions : List Version) (a : MigrationFile)
    (f : File) :
    ((if Contains versions a.version then a.downFile else none) = some f) ↔
      (Contains versions a.version = true ∧ a.downFile = some f) := by
  by_cases hc : Contains versions a.version
  · simp [hc]
  · simp only [Bool.not_eq_true] at hc
    simp [hc]

theorem mem_pending (mf : List MigrationFile) (versions : List Version)
    (f : File) :
    f ∈ (Pending mf versions).2.1 ↔
      ∃ m, m ∈ mf ∧ Contains versions m.version = false ∧
        m.upFile = some f := by
  show f ∈ (sortAsc mf).filterMap _ ↔ _
  rw [List.mem_filterMap]
  constructor
  · rintro ⟨a, ha, hga⟩
    exact ⟨a, (List.perm_insertionSort mfLE mf).mem_iff.mp ha,
      (pending_select versions a f).mp hga⟩
  · rintro ⟨a, ha, hc, hu⟩
    exact ⟨a, (List.perm_insertionSort mfLE mf).mem_iff.mpr ha,
      (pending_select versions a f).mpr ⟨hc, hu⟩⟩

theorem mem_applied (mf : List MigrationFile) (versions : List Version)
    (f : File) :
    f ∈ (Applied mf versions).2.1 ↔
      ∃ m, m ∈ mf ∧ Contains versions m.version = true ∧
        m.downFile = some f := by
  show f ∈ (sortDesc mf).filterMap _ ↔ _
  rw [List.mem_filterMap]
  constructor
  · rintro ⟨a, ha, hga⟩
    exact ⟨a, (List.perm_insertionSort mfGE mf).mem_iff.mp ha,
      (applied_select versions a f).mp hga⟩
  · rintro ⟨a, ha, hc, hd⟩
    exact ⟨a, (List.perm_insertionSort mfGE mf).mem_iff.mpr ha,
      (applied_select versions a f).mpr ⟨hc, hd⟩⟩

/-- C3: for a collection with distinct versions and well-formed slots, the
versions of `Pending(S)` are strictly ascending, those of `Applied(S)` are
strictly descending, `Pending(S)` consists of exactly the Up files of
entries not in `S` with a present Up file, `Applied(S)` of exactly the Down
files of entries in `S` with a present Down file, and no version occurs in
both results. -/
theorem pending_applied_algebra (mf : List MigrationFile)
    (versions : List Version)
    (hdist : (mf.map MigrationFile.version).Nodup)
    (hwf : ∀ m ∈ mf, slotOK m = true) :
    ((Pending mf versions).2.1.map File.version).Pairwise (· < ·)
  ∧ ((Applied mf versions).2.1.map File.version).Pairwise (· > ·)
  ∧ (∀ f, f ∈ (Pending mf versions).2.1 ↔
      ∃ m, m ∈ mf ∧ Contains versions m.version = false ∧ m.upFile = some f)
  ∧ (∀ f, f ∈ (Applied mf versions).2.1 ↔
      ∃ m, m ∈ mf ∧ Contains versions m.version = true ∧ m.downFile = some f)
  ∧ (∀ f g, f ∈ (Pending mf versions).2.1 → g ∈ (Applied mf versions).2.1 →
      f.version ≠ g.version) := by
  have hne : mf.Pairwise (fun a b => a.version ≠ b.version) :=
    List.pairwise_map.mp hdist
  refine ⟨?_, ?_, mem_pending mf versions, mem_applied mf versions, ?_⟩
  · have hperm := List.perm_insertionSort mfLE mf
    have hsorted : (sortAsc mf).Pairwise mfLE :=
      List.sorted_insertionSort mfLE mf
    have hne' : (sortAsc mf).Pairwise (fun a b => a.version ≠ b.version) :=
      (hperm.pairwise_iff fun h => Ne.symm h).mpr hne
    have hok : ∀ a ∈ sortAsc mf, slotOK a = true :=
      fun a ha => hwf a (hperm.mem_iff.mp ha)
    have hcomb := (pairwise_of_forall_mem hok).and (hsorted.and hne')
    refine List.pairwise_map.mpr
      (pairwise_filterMap_of_pairwise _ ?_ hcomb)
    rintro a b ⟨⟨hoa, hob⟩, hab, hne2⟩ x hx y hy
    obtain ⟨hcx, hux⟩ := (pending_select versions a x).mp hx
    obtain ⟨hcy, huy⟩ := (pending_select versions b y).mp hy
    have h1 := (slotOK_up hoa hux).1
    have h2 := (slotOK_up hob huy).1
    have hlt : a.version < b.version := lt_of_le_of_ne hab hne2
    show x.version < y.version
    rw [h1, h2]
    exact hlt
  · have hperm := List.perm_insertionSort mfGE mf
    have hsorted : (sortDesc mf).Pairwise mfGE :=
      List.sorted_insertionSort mfGE mf
    have hne' : (sortDesc mf).Pairwise (fun a b => a.version ≠ b.version) :=
      (hperm.pairwise_iff fun h => Ne.symm h).mpr hne
    have hok : ∀ a ∈ sortDesc mf, slotOK a = true :=
      fun a ha => hwf a (hperm.mem_iff.mp ha)
    have hcomb := (pairwise_of_forall_mem hok).and (hsorted.and hne')
    refine List.pairwise_map.mpr
      (pairwise_filterMap_of_pairwise _ ?_ hcomb)
    rintro a b ⟨⟨hoa, hob⟩, hab, hne2⟩ x hx y hy
    obtain ⟨hcx, hdx⟩ := (applied_select versions a x).mp hx
    obtain ⟨hcy, hdy⟩ := (applied_select versions b y).mp hy
    have h1 := (slotOK_down hoa hdx).1
    have h2 := (slotOK_down hob hdy).1
    have hba : b.version ≤ a.version := hab
    have hlt : y.version < x.version := by
      rw [h1, h2]
      exact lt_of_le_of_ne hba (fun h => hne2 h.symm)
    exact hlt
  · intro f g hf hg
    obtain ⟨m1, hm1, hc1, hu1⟩ := (mem_pending mf versions f).mp hf
    obtain ⟨m2, hm2, hc2, hd2⟩ := (mem_applied mf versions g).mp hg
    have h1 := (slotOK_up (hwf m1 hm1) hu1).1
    have h2 := (slotOK_down (hwf m2 hm2) hd2).1
    intro heq
    have hv : m1.version = m2.version := by rw [← h1, ← h2]; exact heq
    rw [hv] at hc1
    rw [hc1] at hc2
    exact Bool.false_ne_true hc2

/-- C3 witness: the theorem applied at a concrete collection. -/
theorem pending_applied_algebra_witness :
    ((mfW.map MigrationFile.version).Nodup ∧ (∀ m ∈ mfW, slotOK m = true))
  ∧ (((Pending mfW versW).2.1.map File.version).Pairwise (· < ·)
      ∧ ((Applied mfW versW).2.1.map File.version).Pairwise (· > ·)
      ∧ (∀ f, f ∈ (Pending mfW versW).2.1 ↔
          ∃ m, m ∈ mfW ∧ Contains versW m.version = false ∧
            m.upFile = some f)
      ∧ (∀ f, f ∈ (Applied mfW versW).2.1 ↔
          ∃ m, m ∈ mfW ∧ Contains versW m.version = true ∧
            m.downFile = some f)
      ∧ (∀ f g, f ∈ (Pending mfW versW).2.1 → g ∈ (Applied mfW versW).2.1 →
          f.version ≠ g.version)) :=
  ⟨⟨by decide, by decide⟩,
   pending_applied_algebra mfW versW (by decide) (by decide)⟩

/-! ## C9: invariants of the scanned collection -/

theorem buildHead_version (path : String) (all : List TmpFile)
    (t : TmpFile) : (buildHead path all t).version = t.version := by
  cases h : t.d <;> simp [buildHead, h]

theorem buildHead_slotOK (path : String) (all : List TmpFile) (t : TmpFile) :
    ((buildHead path all t).upFile ≠ none ∨
      (buildHead path all t).downFile ≠ none) ∧
    slotOK (buildHead path all t) = true := by
  cases hd : t.d with
  | up =>
    constructor
    · exact Or.inl (by simp [buildHead, hd])
    · cases hfind : all.find? (fun t2 =>
          t2.version == t.version && t2.d == Direction.down) with
      | none => simp [buildHead, hd, slotOK, hfind, scanFile]
      | some t2 => simp [buildHead, hd, slotOK, hfind, scanFile]
  | down =>
    constructor
    · exact Or.inr (by simp [buildHead, hd])
    · cases hfind : all.find? (fun t2 =>
          t2.version == t.version && t2.d == Direction.up) with
      | none => simp [buildHead, hd, slotOK, hfind, scanFile]
      | some t2 => simp [buildHead, hd, slotOK, hfind, scanFile]

theorem buildLoop_cons_skip (path : String) (all : List TmpFile)
    (t : TmpFile) (rest : List TmpFile) (seen : List Version)
    (hc : seen.contains t.version = true) :
    buildMigrationFilesLoop path all (t :: rest) seen =
      buildMigrationFilesLoop path all rest seen := by
  simp only [buildMigrationFilesLoop]
  rw [if_pos hc]

theorem buildLoop_cons_new (path : String) (all : List TmpFile)
    (t : TmpFile) (rest : List TmpFile) (seen : List Version)
    (hc : seen.contains t.version = false) :
    buildMigrationFilesLoop path all (t :: rest) seen =
      buildHead path all t ::
        buildMigrationFilesLoop path all rest (t.version :: seen) := by
  simp only [buildMigrationFilesLoop]
  rw [if_neg (by rw [hc]; exact Bool.false_ne_true)]

theorem buildLoop_versions (path : String) (all : List TmpFile) :
    ∀ (ts : List TmpFile) (seen : List Version),
      (∀ v ∈ (buildMigrationFilesLoop path all ts seen).map
          MigrationFile.version, seen.contains v = false)
    ∧ ((buildMigrationFilesLoop path all ts seen).map
        MigrationFile.version).Nodup := by
  intro ts
  induction ts with
  | nil =>
    intro seen
    exact ⟨fun v hv => by simp [buildMigrationFilesLoop] at hv,
      by simp [buildMigrationFilesLoop]⟩
  | cons t rest ih =>
    intro seen
    by_cases hc : seen.contains t.version = true
    · rw [buildLoop_cons_skip path all t rest seen hc]
      exact ih seen
    · have hc' : seen.contains t.version = false := by simpa using hc
      rw [buildLoop_cons_new path all t rest seen hc']
      have htail := ih (t.version :: seen)
      constructor
      · intro v hv
        rw [List.map_cons, buildHead_version path all t] at hv
        rcases List.mem_cons.mp hv with hv | hv
        · rw [hv]; exact hc'
        · have := htail.1 v hv
          rw [List.contains_cons] at this
          exact (Bool.or_eq_false_iff.mp this).2
      · rw [List.map_cons, buildHead_version path all t]
        refine List.Nodup.cons ?_ htail.2
        intro hmem
        have := htail.1 t.version hmem
        rw [List.contains_cons] at this
        simp at this

theorem buildLoop_slots (path : String) (all : List TmpFile) :
    ∀ (ts : List TmpFile) (seen : List Version) (m : MigrationFile),
      m ∈ buildMigrationFilesLoop path all ts seen →
      (m.upFile ≠ none ∨ m.downFile ≠ none) ∧ slotOK m = true := by
  intro ts
  induction ts with
  | nil =>
    intro seen m hm
    simp [buildMigrationFilesLoop] at hm
  | cons t rest ih =>
    intro seen m hm
    by_cases hc : seen.contains t.version = true
    · rw [buildLoop_cons_skip path all t rest seen hc] at hm
      exact ih seen m hm
    · have hc' : seen.contains t.version = false := by simpa using hc
      rw [buildLoop_cons_new path all t rest seen hc'] at hm
      rcases List.mem_cons.mp hm with hm | hm
      · subst hm
        exact buildHead_slotOK path all t
      · exact ih (t.version :: seen) m hm

/-- C9: every successful scan yields entries with at least one present
slot, version- and direction-correct slot files, pairwise-distinct
versions, and an ascending order. -/
theorem readMigrationFiles_wellformed (path : String) (ext : List Char)
    (dirListing : Except String (List (List Char))) :
    ∀ files, ReadMigrationFiles path ext dirListing = .ok files →
      (∀ m ∈ files, (m.upFile ≠ none ∨ m.downFile ≠ none) ∧ slotOK m = true)
    ∧ (files.map MigrationFile.version).Nodup
    ∧ files.Pairwise mfLE := by
  intro files hok
  cases dirListing with
  | error e => simp [ReadMigrationFiles] at hok
  | ok entries =>
    rw [ReadMigrationFiles] at hok
    cases hscan : scanTmpFiles ext entries [] with
    | error e => rw [hscan] at hok; cases hok
    | ok tmp =>
      rw [hscan] at hok
      have hfiles : files =
          sortAsc (buildMigrationFilesLoop path tmp tmp []) :=
        ((Except.ok.injEq _ _).mp hok).symm
      subst hfiles
      have hperm :=
        List.perm_insertionSort mfLE (buildMigrationFilesLoop path tmp tmp [])
      refine ⟨?_, ?_, List.sorted_insertionSort mfLE _⟩
      · intro m hm
        exact buildLoop_slots path tmp tmp [] m (hperm.mem_iff.mp hm)
      · exact ((hperm.map MigrationFile.version).nodup_iff).mpr
          (buildLoop_versions path tmp tmp []).2

/-- The driver extension used in concrete scan examples. -/
def extSql : List Char := String.toList "sql"

/-- A concrete directory listing: version 1 with both directions, version 2
up-only, and one non-matching entry. -/
def dirW : Except String (List (List Char)) :=
  .ok ([ "1_a.up.sql", "1_a.down.sql", "2_b.up.sql", "notes.txt" ].map
    String.toList)

/-- The scan result for `dirW`. -/
def filesW : List MigrationFile :=
  match ReadMigrationFiles "mig" extSql dirW with
  | .ok fs => fs
  | .error _ => []

/-- C9 witness: the theorem applied to a concrete successful scan. -/
theorem readMigrationFiles_wellformed_witness :
    ReadMigrationFiles "mig" extSql dirW = .ok filesW
  ∧ ((∀ m ∈ filesW, (m.upFile ≠ none ∨ m.downFile ≠ none) ∧ slotOK m = true)
      ∧ (filesW.map MigrationFile.version).Nodup
      ∧ filesW.Pairwise mfLE) :=
  ⟨rfl, readMigrationFiles_wellformed "mig" extSql dirW filesW rfl⟩

/-! ## C7: scanner error behaviour -/

/-- The (version, direction) key of a parsed entry. -/
def pairOf (t : TmpFile) : Version × Direction := (t.version, t.d)

/-- The (version, direction) keys of the entries of a listing that match
the filename pattern. -/
def parsedPairs (ext : List Char) (entries : List (List Char)) :
    List (Version × Direction) :=
  entries.filterMap (fun e =>
    (parseFilenameSchema ext e).map (fun r => (r.1, r.2.2)))

theorem parsedPairs_cons_none (ext : List Char) (e : List Char)
    (rest : List (List Char)) (hp : parseFilenameSchema ext e = none) :
    parsedPairs ext (e :: rest) = parsedPairs ext rest := by
  simp [parsedPairs, List.filterMap_cons, hp]

theorem parsedPairs_cons_some (ext : List Char) (e : List Char)
    (rest : List (List Char)) (v : Version) (n : List Char) (d : Direction)
    (hp : parseFilenameSchema ext e = some (v, n, d)) :
    parsedPairs ext (e :: rest) = (v, d) :: parsedPairs ext rest := by
  simp [parsedPairs, List.filterMap_cons, hp]

theorem scanTmpFiles_ok_iff (ext : List Char) :
    ∀ (entries : List (List Char)) (acc : List TmpFile),
      (acc.map pairOf).Nodup →
      ((∃ ts, scanTmpFiles ext entries acc = .ok ts) ↔
        (acc.map pairOf ++ parsedPairs ext entries).Nodup) := by
  intro entries
  induction entries with
  | nil =>
    intro acc hacc
    constructor
    · intro _
      simpa [parsedPairs] using hacc
    · intro _
      exact ⟨acc, rfl⟩
  | cons e rest ih =>
    intro acc hacc
    cases hp : parseFilenameSchema ext e with
    | none =>
      rw [parsedPairs_cons_none ext e rest hp]
      have heq : scanTmpFiles ext (e :: rest) acc =
          scanTmpFiles ext rest acc := by
        simp only [scanTmpFiles, hp]
      rw [heq]
      exact ih acc hacc
    | some r =>
      obtain ⟨v, n, d⟩ := r
      rw [parsedPairs_cons_some ext e rest v n d hp]
      cases hfind : acc.find? (fun t => t.version == v && t.d == d) with
      | some existing =>
        have heq : scanTmpFiles ext (e :: rest) acc =
            .error (.duplicate v existing.filename e) := by
          simp only [scanTmpFiles, hp, hfind]
        rw [heq]
        have hpred := List.find?_some hfind
        simp only [Bool.and_eq_true, beq_iff_eq] at hpred
        have hmemp : (v, d) ∈ acc.map pairOf :=
          List.mem_map.mpr ⟨existing, List.mem_of_find?_eq_some hfind,
            by rw [pairOf, hpred.1, hpred.2]⟩
        constructor
        · rintro ⟨ts, hts⟩
          cases hts
        · intro hnd
          exfalso
          rcases List.nodup_append.mp hnd with ⟨_, _, hdisj⟩
          exact hdisj hmemp (List.mem_cons_self _ _)
      | none =>
        have heq : scanTmpFiles ext (e :: rest) acc =
            scanTmpFiles ext rest
              (acc ++ [{ version := v, name := n, filename := e, d := d }]) := by
          simp only [scanTmpFiles, hp, hfind]
        rw [heq]
        have hnotin : (v, d) ∉ acc.map pairOf := by
          intro hmem
          rcases List.mem_map.mp hmem with ⟨t, ht, hpt⟩
          have hfalse := List.find?_eq_none.mp hfind t ht
          rw [pairOf] at hpt
          have h1 : t.version = v := congrArg Prod.fst hpt
          have h2 : t.d = d := congrArg Prod.snd hpt
          apply hfalse
          rw [h1, h2]
          simp
        have hacc' :
            ((acc ++ [({ version := v, name := n, filename := e, d := d } :
              TmpFile)]).map pairOf).Nodup := by
          rw [List.map_append]
          refine List.nodup_append.mpr ⟨hacc, List.nodup_singleton _, ?_⟩
          intro a ha hb
          rcases List.mem_singleton.mp hb with rfl
          exact hnotin ha
        have hres := ih
          (acc ++ [{ version := v, name := n, filename := e, d := d }]) hacc'
        rw [List.map_append] at hres
        rw [List.append_assoc] at hres
        simpa [pairOf] using hres

theorem scanTmpFiles_duplicate (ext : List Char) :
    ∀ (entries : List (List Char)) (acc : List TmpFile) (v : Version)
      (f1 f2 : List Char),
      (∀ t ∈ acc,
        parseFilenameSchema ext t.filename = some (t.version, t.name, t.d)) →
      scanTmpFiles ext entries acc = .error (.duplicate v f1 f2) →
      (f1 ∈ acc.map TmpFile.filename ∨ f1 ∈ entries) ∧ f2 ∈ entries ∧
      ∃ n1 d n2, parseFilenameSchema ext f1 = some (v, n1, d) ∧
        parseFilenameSchema ext f2 = some (v, n2, d) := by
  intro entries
  induction entries with
  | nil =>
    intro acc v f1 f2 _ hscan
    cases hscan
  | cons e rest ih =>
    intro acc v f1 f2 hacc hscan
    cases hp : parseFilenameSchema ext e with
    | none =>
      rw [show scanTmpFiles ext (e :: rest) acc = scanTmpFiles ext rest acc by
        simp only [scanTmpFiles, hp]] at hscan
      obtain ⟨h1, h2, h3⟩ := ih acc v f1 f2 hacc hscan
      exact ⟨h1.imp id (List.mem_cons_of_mem e), List.mem_cons_of_mem e h2, h3⟩
    | some r =>
      obtain ⟨v0, n0, d0⟩ := r
      cases hfind : acc.find? (fun t => t.version == v0 && t.d == d0) with
      | some existing =>
        rw [show scanTmpFiles ext (e :: rest) acc =
            .error (.duplicate v0 existing.filename e) by
          simp only [scanTmpFiles, hp, hfind]] at hscan
        have hinj := (Except.error.injEq _ _).mp hscan
        have hv : v0 = v := by
          cases hinj; rfl
        have hf1 : existing.filename = f1 := by
          cases hinj; rfl
        have hf2 : e = f2 := by
          cases hinj; rfl
        have hpred := List.find?_some hfind
        simp only [Bool.and_eq_true, beq_iff_eq] at hpred
        have hmem := List.mem_of_find?_eq_some hfind
        subst hv hf1 hf2
        refine ⟨Or.inl (List.mem_map.mpr ⟨existing, hmem, rfl⟩),
          List.mem_cons_self _ _, existing.name, existing.d, n0, ?_, ?_⟩
        · rw [hacc existing hmem, hpred.1]
        · rw [hp, hpred.2]
      | none =>
        rw [show scanTmpFiles ext (e :: rest) acc = scanTmpFiles ext rest
            (acc ++ [{ version := v0, name := n0, filename := e, d := d0 }]) by
          simp only [scanTmpFiles, hp, hfind]] at hscan
        have hacc' : ∀ t ∈
            acc ++ [{ version := v0, name := n0, filename := e, d := d0 }],
            parseFilenameSchema ext t.filename =
              some (t.version, t.name, t.d) := by
          intro t ht
          rcases List.mem_append.mp ht with ht | ht
          · exact hacc t ht
          · rcases List.mem_singleton.mp ht with rfl
            exact hp
        obtain ⟨h1, h2, h3⟩ := ih _ v f1 f2 hacc' hscan
        refine ⟨?_, List.mem_cons_of_mem e h2, h3⟩
        rcases h1 with h1 | h1
        · rw [List.map_append] at h1
          rcases List.mem_append.mp h1 with h1 | h1
          · exact Or.inl h1
          · rcases List.mem_singleton.mp h1 with rfl
            exact Or.inr (List.mem_cons_self _ _)
        · exact Or.inr (List.mem_cons_of_mem e h1)

/-- C7: scanning fails exactly when the directory is unreadable or two
entries parse to the same (version, direction) key; a duplicate error
carries both conflicting filenames, which are listing entries agreeing on
version and direction; non-matching entries never cause an error. -/
theorem readMigrationFiles_error_spec (path : String) (ext : List Char)
    (dirListing : Except String (List (List Char))) :
    (∀ s, dirListing = .error s →
      ReadMigrationFiles path ext dirListing = .error (.unreadable s))
  ∧ (∀ entries, dirListing = .ok entries →
      ((∃ fs, ReadMigrationFiles path ext dirListing = .ok fs) ↔
        (parsedPairs ext entries).Nodup))
  ∧ (∀ entries v f1 f2, dirListing = .ok entries →
      ReadMigrationFiles path ext dirListing = .error (.duplicate v f1 f2) →
      f1 ∈ entries ∧ f2 ∈ entries ∧
      ∃ n1 d n2, parseFilenameSchema ext f1 = some (v, n1, d) ∧
        parseFilenameSchema ext f2 = some (v, n2, d)) := by
  refine ⟨?_, ?_, ?_⟩
  · intro s hs
    subst hs
    rfl
  · intro entries he
    subst he
    have hiff := scanTmpFiles_ok_iff ext entries [] (by simp)
    simp only [List.map_nil, List.nil_append] at hiff
    rw [ReadMigrationFiles]
    cases hscan : scanTmpFiles ext entries [] with
    | error e =>
      constructor
      · rintro ⟨fs, hfs⟩
        cases hfs
      · intro hnd
        obtain ⟨ts, hts⟩ := hiff.mpr hnd
        rw [hscan] at hts
        cases hts
    | ok tmp =>
      constructor
      · intro _
        exact hiff.mp ⟨tmp, hscan⟩
      · intro _
        exact ⟨_, rfl⟩
  · intro entries v f1 f2 he hr
    subst he
    rw [ReadMigrationFiles] at hr
    cases hscan : scanTmpFiles ext entries [] with
    | ok tmp =>
      rw [hscan] at hr
      cases hr
    | error e =>
      rw [hscan] at hr
      have : e = .duplicate v f1 f2 := (Except.error.injEq _ _).mp hr
      subst this
      have := scanTmpFiles_duplicate ext entries [] v f1 f2
        (by intro t ht; cases ht) hscan
      simpa using this

/-- A listing with a duplicate (version, direction) pair: `01_a.up.sql` and
`1_b.up.sql` both parse to version 1, direction up. -/
def dirDup : Except String (List (List Char)) :=
  .ok ([ "01_a.up.sql", "1_b.up.sql" ].map String.toList)

/-- C7 witness: the theorem applied to an unreadable directory, to the
successful listing `dirW`, and to the duplicate listing `dirDup`. -/
theorem readMigrationFiles_error_spec_witness :
    ReadMigrationFiles "mig" extSql (.error "denied") =
      .error (.unreadable "denied")
  ∧ ((∃ fs, ReadMigrationFiles "mig" extSql dirW = .ok fs) ↔
      (parsedPairs extSql ([ "1_a.up.sql", "1_a.down.sql", "2_b.up.sql",
        "notes.txt" ].map String.toList)).Nodup)
  ∧ (ReadMigrationFiles "mig" extSql dirDup =
      .error (.duplicate 1 (String.toList "01_a.up.sql")
        (String.toList "1_b.up.sql"))
     ∧ String.toList "01_a.up.sql" ∈
        ([ "01_a.up.sql", "1_b.up.sql" ].map String.toList)
     ∧ String.toList "1_b.up.sql" ∈
        ([ "01_a.up.sql", "1_b.up.sql" ].map String.toList)
     ∧ ∃ n1 d n2,
        parseFilenameSchema extSql (String.toList "01_a.up.sql") =
          some (1, n1, d) ∧
        parseFilenameSchema extSql (String.toList "1_b.up.sql") =
          some (1, n2, d)) := by
  refine ⟨(readMigrationFiles_error_spec "mig" extSql (.error "denied")).1
    "denied" rfl, ?_, ?_⟩
  · exact (readMigrationFiles_error_spec "mig" extSql dirW).2.1 _ rfl
  · refine ⟨rfl, ?_⟩
    have h := (readMigrationFiles_error_spec "mig" extSql dirDup).2.2 _ 1
      (String.toList "01_a.up.sql") (String.toList "1_b.up.sql") rfl rfl
    exact ⟨h.1, h.2.1, h.2.2⟩

/-! ## C5: step semantics of the execution loop -/

theorem runHook_events (hook : Option (File → Option String)) (name : String)
    (f : File) :
    (runHookIfNotNil hook name f).2 = [] ∨
    (runHookIfNotNil hook name f).2 = [Event.hookCall name f] := by
  cases hook with
  | none => exact Or.inl rfl
  | some h =>
    cases hh : h f with
    | none => exact Or.inr (by simp [runHookIfNotNil, hh])
    | some e => exact Or.inr (by simp [runHookIfNotNil, hh])

/-- C5: before each step the cancellation signal is checked and a canceled
context aborts naming the version, with no driver call; a failing pre-hook
prevents the driver call; a failing driver call skips the post-hook and
abandons the rest of the sequence; a failing post-hook abandons the rest of
the sequence; a successful step contributes its events as an untouched
prefix (no rollback) before the remaining sequence's events. -/
theorem drvMigrate_sequence_spec (m : Handle) (env : Env) (f : File)
    (rest : List File) :
    (env.ctxCanceled = true →
      m.runSeq env (f :: rest) =
        (.error ("interrupted before applying version " ++
          toString f.version ++ ": context canceled"), []))
  ∧ (env.ctxCanceled = false →
      ∀ e, (runHookIfNotNil m.preHook "pre" f).1 = some e →
      (m.drvMigrate env f).1 = .error e
      ∧ (∀ g, Event.drvMigrateCall g ∉ (m.drvMigrate env f).2)
      ∧ m.runSeq env (f :: rest) = (.error e, (m.drvMigrate env f).2))
  ∧ (env.ctxCanceled = false →
      (runHookIfNotNil m.preHook "pre" f).1 = none →
      ∀ e, env.drvMigrateRes f = some e →
      (m.drvMigrate env f).1 = .error e
      ∧ Event.hookCall "post" f ∉ (m.drvMigrate env f).2
      ∧ m.runSeq env (f :: rest) = (.error e, (m.drvMigrate env f).2))
  ∧ (env.ctxCanceled = false →
      (runHookIfNotNil m.preHook "pre" f).1 = none →
      env.drvMigrateRes f = none →
      ∀ e, (runHookIfNotNil m.postHook "post" f).1 = some e →
      (m.drvMigrate env f).1 = .error e
      ∧ m.runSeq env (f :: rest) = (.error e, (m.drvMigrate env f).2))
  ∧ ((m.drvMigrate env f).1 = .ok () →
      m.runSeq env (f :: rest) =
        ((m.runSeq env rest).1,
          (m.drvMigrate env f).2 ++ (m.runSeq env rest).2)) := by
  refine ⟨?_, ?_, ?_, ?_, ?_⟩
  · intro hc
    simp [Handle.runSeq, Handle.drvMigrate, hc]
  · intro hc e hpre
    have hd : m.drvMigrate env f =
        (.error e, (runHookIfNotNil m.preHook "pre" f).2) := by
      simp [Handle.drvMigrate, hc, hpre]
    refine ⟨by rw [hd], ?_, ?_⟩
    · intro g hg
      rw [hd] at hg
      rcases runHook_events m.preHook "pre" f with he | he <;>
        simp [he] at hg
    · rw [Handle.runSeq, hd]
  · intro hc hpre e hmig
    have hd : m.drvMigrate env f =
        (.error e, (runHookIfNotNil m.preHook "pre" f).2 ++
          [Event.drvMigrateCall f]) := by
      simp [Handle.drvMigrate, hc, hpre, hmig]
    refine ⟨by rw [hd], ?_, ?_⟩
    · intro hg
      rw [hd] at hg
      rcases runHook_events m.preHook "pre" f with he | he <;>
        simp [he] at hg
    · rw [Handle.runSeq, hd]
  · intro hc hpre hmig e hpost
    have hd : m.drvMigrate env f =
        (.error e, (runHookIfNotNil m.preHook "pre" f).2 ++
          [Event.drvMigrateCall f] ++
          (runHookIfNotNil m.postHook "post" f).2) := by
      simp [Handle.drvMigrate, hc, hpre, hmig, hpost]
    refine ⟨by rw [hd], ?_⟩
    rw [Handle.runSeq, hd]
  · intro hok
    rcases hd : m.drvMigrate env f with ⟨res, ev⟩
    rw [hd] at hok
    simp only at hok
    subst hok
    rw [Handle.runSeq, hd]

/-- An environment with the cancellation signal already raised. -/
def envCanceled : Env := { envOK with ctxCanceled := true }

/-- An environment in which migrating `fU2` fails. -/
def envMigFail : Env :=
  { envOK with drvMigrateRes := fun g => if g = fU2 then some "boom" else none }

/-- C5 witness: the theorem applied concretely to the canceled case and to
a failing driver call in the middle of a sequence. -/
theorem drvMigrate_sequence_spec_witness :
    (envCanceled.ctxCanceled = true ∧
      freshH.runSeq envCanceled [fU1] =
        (.error ("interrupted before applying version " ++
          toString fU1.version ++ ": context canceled"), []))
  ∧ (envMigFail.ctxCanceled = false ∧
      (runHookIfNotNil freshH.preHook "pre" fU2).1 = none ∧
      envMigFail.drvMigrateRes fU2 = some "boom" ∧
      ((freshH.drvMigrate envMigFail fU2).1 = .error "boom"
        ∧ Event.hookCall "post" fU2 ∉ (freshH.drvMigrate envMigFail fU2).2
        ∧ freshH.runSeq envMigFail (fU2 :: [fU1]) =
            (.error "boom", (freshH.drvMigrate envMigFail fU2).2))) :=
  ⟨⟨rfl, (drvMigrate_sequence_spec freshH envCanceled fU1 []).1 rfl⟩,
   ⟨rfl, rfl, by decide,
    (drvMigrate_sequence_spec freshH envMigFail fU2 [fU1]).2.2.1 rfl rfl
      "boom" (by decide)⟩⟩

/-! ## C6: single-version validation -/

/-- Whether an event is a driver `Migrate` call. -/
def isMigrateCall : Event → Bool
  | .drvMigrateCall _ => true
  | _ => false

theorem drvMigrate_events_hookfree (m : Handle) (env : Env) (f : File)
    (hc : env.ctxCanceled = false) (hpre : m.preHook = none)
    (hpost : m.postHook = none) :
    (m.drvMigrate env f).2 = [Event.drvMigrateCall f] := by
  cases hm : env.drvMigrateRes f with
  | none => simp [Handle.drvMigrate, hc, hpre, hpost, hm, runHookIfNotNil]
  | some e => simp [Handle.drvMigrate, hc, hpre, hpost, hm, runHookIfNotNil]

theorem unlock_no_migrate (m : Handle) (env : Env) :
    ((m.unlock env).2.filter isMigrateCall) = [] := by
  cases hu : env.drvUnlockRes with
  | none => simp [Handle.unlock, hu, isMigrateCall]
  | some e => simp [Handle.unlock, hu, isMigrateCall]

/-- `locking` under a plain environment: the lock is acquired, the body
runs on the locked handle, and the unlock closure runs afterwards. -/
theorem locking_eval (m : Handle) (env : Env)
    (hfe : m.fatalErr = none) (hlocked : m.locked = false)
    (hcancel : env.ctxCanceled = false) (hlock : env.drvLockRes = none)
    (f : Handle → Except String Unit × Handle × List Event) :
    m.locking env f =
      ((f { m with locked := true }).1,
        (((f { m with locked := true }).2.1).unlock env).1,
        [Event.drvLockCall] ++ (f { m with locked := true }).2.2 ++
          (((f { m with locked := true }).2.1).unlock env).2) := by
  rw [Handle.locking]
  rw [show m.lock env =
      (.ok (), true, { m with locked := true }, [Event.drvLockCall]) by
    simp [Handle.lock, hfe, hlocked, hcancel, hlock]]
  rfl

/-- C6: `ApplyVersion v` fails before any driver `Migrate` call when `v` is
already applied or has no Up file; `RollbackVersion v` fails before any
driver `Migrate` call when `v` is not applied or has no Down file;
otherwise exactly the one matching file reaches the driver. -/
theorem migrateVersion_spec (m : Handle) (env : Env) (v : Version)
    (files : List MigrationFile) (V : List Version)
    (hfe : m.fatalErr = none) (hlocked : m.locked = false)
    (hcancel : env.ctxCanceled = false) (hlock : env.drvLockRes = none)
    (hrd : env.readDir = .ok files) (hvs : env.drvVersions = .ok V)
    (hpre : m.preHook = none) (hpost : m.postHook = none) :
    (Contains V v = true →
      (m.ApplyVersion env v).1 =
        .error ("version " ++ toString v ++ " is already applied")
      ∧ (m.ApplyVersion env v).2.2.filter isMigrateCall = [])
  ∧ (Contains V v = false → findMigration files v .up = none →
      (m.ApplyVersion env v).1 =
        .error ("no \x60up\x60 migration file for version " ++ toString v)
      ∧ (m.ApplyVersion env v).2.2.filter isMigrateCall = [])
  ∧ (Contains V v = false → ∀ f, findMigration files v .up = some f →
      (m.ApplyVersion env v).2.2.filter isMigrateCall =
        [Event.drvMigrateCall f])
  ∧ (Contains V v = false →
      (m.RollbackVersion env v).1 =
        .error ("version " ++ toString v ++ " is not applied")
      ∧ (m.RollbackVersion env v).2.2.filter isMigrateCall = [])
  ∧ (Contains V v = true → findMigration files v .down = none →
      (m.RollbackVersion env v).1 =
        .error ("no \x60down\x60 migration file for version " ++ toString v)
      ∧ (m.RollbackVersion env v).2.2.filter isMigrateCall = [])
  ∧ (Contains V v = true → ∀ f, findMigration files v .down = some f →
      (m.RollbackVersion env v).2.2.filter isMigrateCall =
        [Event.drvMigrateCall f]) := by
  have hmlocked : ∀ g,
      (({ m with locked := true } : Handle).drvMigrate env g).2 =
        [Event.drvMigrateCall g] := fun g =>
    drvMigrate_events_hookfree _ env g hcancel hpre hpost
  refine ⟨?_, ?_, ?_, ?_, ?_, ?_⟩
  · intro hcont
    rw [Handle.ApplyVersion, Handle.migrateVersion,
      locking_eval m env hfe hlocked hcancel hlock]
    simp only [Handle.readFilesAndGetVersions, hrd, hvs]
    have hpos : True ∧ Contains V v = true := ⟨trivial, hcont⟩
    rw [if_pos hpos]
    exact ⟨rfl, by simp [List.filter_append, unlock_no_migrate, isMigrateCall]⟩
  · intro hcont hfind
    rw [Handle.ApplyVersion, Handle.migrateVersion,
      locking_eval m env hfe hlocked hcancel hlock]
    simp only [Handle.readFilesAndGetVersions, hrd, hvs]
    have hneg1 : ¬ (True ∧ Contains V v = true) :=
      fun h => by rw [hcont] at h; exact Bool.false_ne_true h.2
    have hneg2 : ¬ (Direction.up = Direction.down ∧ ¬ Contains V v = true) :=
      fun h => Direction.noConfusion h.1
    rw [if_neg hneg1, if_neg hneg2, hfind]
    exact ⟨rfl, by simp [List.filter_append, unlock_no_migrate, isMigrateCall]⟩
  · intro hcont f hfind
    rw [Handle.ApplyVersion, Handle.migrateVersion,
      locking_eval m env hfe hlocked hcancel hlock]
    simp only [Handle.readFilesAndGetVersions, hrd, hvs]
    have hneg1 : ¬ (True ∧ Contains V v = true) :=
      fun h => by rw [hcont] at h; exact Bool.false_ne_true h.2
    have hneg2 : ¬ (Direction.up = Direction.down ∧ ¬ Contains V v = true) :=
      fun h => Direction.noConfusion h.1
    rw [if_neg hneg1, if_neg hneg2, hfind]
    simp [List.filter_append, unlock_no_migrate, isMigrateCall, hmlocked f]
  · intro hcont
    rw [Handle.RollbackVersion, Handle.migrateVersion,
      locking_eval m env hfe hlocked hcancel hlock]
    simp only [Handle.readFilesAndGetVersions, hrd, hvs]
    have hneg : ¬ (Direction.down = Direction.up ∧ Contains V v = true) :=
      fun h => Direction.noConfusion h.1
    have hpos : True ∧ ¬ Contains V v = true :=
      ⟨trivial, by rw [hcont]; exact Bool.false_ne_true⟩
    rw [if_neg hneg, if_pos hpos]
    exact ⟨rfl, by simp [List.filter_append, unlock_no_migrate, isMigrateCall]⟩
  · intro hcont hfind
    rw [Handle.RollbackVersion, Handle.migrateVersion,
      locking_eval m env hfe hlocked hcancel hlock]
    simp only [Handle.readFilesAndGetVersions, hrd, hvs]
    have hneg1 : ¬ (Direction.down = Direction.up ∧ Contains V v = true) :=
      fun h => Direction.noConfusion h.1
    have hneg2 : ¬ (True ∧ ¬ Contains V v = true) := fun h => h.2 hcont
    rw [if_neg hneg1, if_neg hneg2, hfind]
    exact ⟨rfl, by simp [List.filter_append, unlock_no_migrate, isMigrateCall]⟩
  · intro hcont f hfind
    rw [Handle.RollbackVersion, Handle.migrateVersion,
      locking_eval m env hfe hlocked hcancel hlock]
    simp only [Handle.readFilesAndGetVersions, hrd, hvs]
    have hneg1 : ¬ (Direction.down = Direction.up ∧ Contains V v = true) :=
      fun h => Direction.noConfusion h.1
    have hneg2 : ¬ (True ∧ ¬ Contains V v = true) := fun h => h.2 hcont
    rw [if_neg hneg1, if_neg hneg2, hfind]
    simp [List.filter_append, unlock_no_migrate, isMigrateCall, hmlocked f]

/-- An environment whose scan yields `mfW` and whose applied set is
`versW`. -/
def envScan : Env := { envOK with readDir := .ok mfW, drvVersions := .ok versW }

/-- C6 witness: the theorem applied at concrete data — version 3 is
applied (Apply fails before any driver call), version 2 is not applied and
its Up file reaches the driver. -/
theorem migrateVersion_spec_witness :
    (freshH.fatalErr = none ∧ freshH.locked = false ∧
      envScan.ctxCanceled = false ∧ envScan.drvLockRes = none ∧
      envScan.readDir = .ok mfW ∧ envScan.drvVersions = .ok versW ∧
      freshH.preHook = none ∧ freshH.postHook = none)
  ∧ (Contains versW 3 = true ∧
      (freshH.ApplyVersion envScan 3).1 =
        .error ("version " ++ toString (3 : Nat) ++ " is already applied")
      ∧ (freshH.ApplyVersion envScan 3).2.2.filter isMigrateCall = [])
  ∧ (Contains versW 2 = false ∧ findMigration mfW 2 .up = some fU2 ∧
      (freshH.ApplyVersion envScan 2).2.2.filter isMigrateCall =
        [Event.drvMigrateCall fU2]) := by
  refine ⟨⟨rfl, rfl, rfl, rfl, rfl, rfl, rfl, rfl⟩, ⟨by decide, ?_⟩,
    ⟨by decide, by decide, ?_⟩⟩
  · exact (migrateVersion_spec freshH envScan 3 mfW versW rfl rfl rfl rfl rfl
      rfl rfl rfl).1 (by decide)
  · exact (migrateVersion_spec freshH envScan 2 mfW versW rfl rfl rfl rfl rfl
      rfl rfl rfl).2.2.1 (by decide) fU2 (by decide)

/-! ## C4: the sticky fatal error -/

theorem lock_poisoned (m : Handle) (env : Env) (e : String)
    (h : m.fatalErr = some e) :
    m.lock env = (.error e, false, m, []) := by
  rw [Handle.lock, h]

theorem locking_poisoned (m : Handle) (env : Env) (e : String)
    (h : m.fatalErr = some e)
    (f : Handle → Except String Unit × Handle × List Event) :
    m.locking env f = (.error e, m, []) := by
  rw [Handle.locking, lock_poisoned m env e h]

theorem create_handle_frame (m : Handle) (env : Env) (name : String) :
    (m.Create env name).2.1 = m := by
  rw [Handle.Create]
  split
  · rfl
  · dsimp only
    split
    · rfl
    · split
      · rfl
      · rfl

/-- C4 (amended): every lock-acquiring public operation on a poisoned
handle fails immediately with the stored error, leaving the handle
untouched and performing no I/O; no operation (`Create` and `Close`
included) ever clears the stored error; and the error is set exactly by an
unlock failure, which also closes the driver connection.  (`Create` and
`Close` themselves perform no poisoned-state check — see the
counterexample.) -/
theorem poisoned_handle_spec (m : Handle) (env : Env) (e : String)
    (h : m.fatalErr = some e) :
    m.Up env = (.error e, m, [])
  ∧ m.Down env = (.error e, m, [])
  ∧ (∀ n, m.Migrate env n = (.error e, m, []))
  ∧ m.Redo env = (.error e, m, [])
  ∧ m.Reset env = (.error e, m, [])
  ∧ (∀ v, m.ApplyVersion env v = (.error e, m, []))
  ∧ (∀ v, m.RollbackVersion env v = (.error e, m, []))
  ∧ m.Version env = (.error e, m, [])
  ∧ m.Versions env = (.error e, m, [])
  ∧ m.PendingMigrations env = (.error e, m, [])
  ∧ (∀ name, ((m.Create env name).2.1).fatalErr = some e)
  ∧ ((m.Close env).2.1).fatalErr = some e
  ∧ (∀ m2 : Handle, env.drvUnlockRes = none →
      (m2.unlock env).1.fatalErr = m2.fatalErr)
  ∧ (∀ (m2 : Handle) (u : String), env.drvUnlockRes = some u →
      (m2.unlock env).1.fatalErr =
        some ("connection closed, this handle is no longer " ++
          "usable - failed to unlock database after last session: " ++ u)
      ∧ Event.drvCloseCall ∈ (m2.unlock env).2) := by
  refine ⟨locking_poisoned m env e h _, locking_poisoned m env e h _,
    fun n => locking_poisoned m env e h _, locking_poisoned m env e h _,
    locking_poisoned m env e h _, fun v => locking_poisoned m env e h _,
    fun v => locking_poisoned m env e h _, ?_, ?_, ?_, ?_, h, ?_, ?_⟩
  · rw [Handle.Version, lock_poisoned m env e h]
  · rw [Handle.Versions, lock_poisoned m env e h]
  · rw [Handle.PendingMigrations, lock_poisoned m env e h]
  · intro name
    rw [create_handle_frame m env name, h]
  · intro m2 hu
    rw [Handle.unlock, hu]
  · intro m2 u hu
    rw [Handle.unlock, hu]
    exact ⟨rfl, by simp⟩

/-- A poisoned handle. -/
def poisonedH : Handle :=
  { migrationsPath := "mig", locked := true, fatalErr := some "unlock failed",
    preHook := none, postHook := none }

/-- C4 counterexample: the claim says EVERY public operation on a poisoned
handle first checks the Poisoned state and fails immediately with the
stored error, performing no further driver or filesystem I/O.  `Create`
performs no such check: on a poisoned handle it still scans the
filesystem, still queries the driver for its versions, still writes both
files, and succeeds. -/
theorem poisoned_create_counterexample :
    poisonedH.fatalErr = some "unlock failed"
  ∧ (∃ mfile, (poisonedH.Create envOK "add_col").1 = .ok mfile)
  ∧ Event.fsScan ∈ (poisonedH.Create envOK "add_col").2.2
  ∧ Event.drvVersionsCall ∈ (poisonedH.Create envOK "add_col").2.2
  ∧ (poisonedH.Create envOK "add_col").2.2 ≠ [] :=
  ⟨rfl, ⟨_, rfl⟩, by decide, by decide, by decide⟩

/-- C4 witness: the amended theorem applied to the concrete poisoned
handle. -/
theorem poisoned_handle_spec_witness :
    poisonedH.fatalErr = some "unlock failed"
  ∧ poisonedH.Up envOK = (.error "unlock failed", poisonedH, [])
  ∧ poisonedH.Version envOK = (.error "unlock failed", poisonedH, [])
  ∧ poisonedH.ApplyVersion envOK 7 = (.error "unlock failed", poisonedH, [])
  ∧ ((poisonedH.Create envOK "x").2.1).fatalErr = some "unlock failed" := by
  have h := poisoned_handle_spec poisonedH envOK "unlock failed" rfl
  exact ⟨rfl, h.1, h.2.2.2.2.2.2.2.1, h.2.2.2.2.2.1 7,
    h.2.2.2.2.2.2.2.2.2.2.1 "x"⟩

/-! ## C8: Create -/

theorem getLast?_mem_mf :
    ∀ (l : List MigrationFile) (x : MigrationFile), l.getLast? = some x →
      x ∈ l := by
  intro l
  induction l with
  | nil => intro x h; cases h
  | cons a t ih =>
    intro x h
    cases t with
    | nil =>
      cases h
      exact List.mem_singleton.mpr rfl
    | cons b t2 =>
      rw [List.getLast?_cons_cons] at h
      exact List.mem_cons_of_mem a (ih x h)

theorem pairwise_getLast_ge :
    ∀ (l : List MigrationFile), l.Pairwise mfLE →
      ∀ m2 ∈ l, ∃ last, l.getLast? = some last ∧ m2.version ≤ last.version := by
  intro l
  induction l with
  | nil => intro _ m2 hm; cases hm
  | cons a t ih =>
    intro hs m2 hm
    cases t with
    | nil =>
      rcases List.mem_singleton.mp hm with rfl
      exact ⟨m2, rfl, Nat.le_refl _⟩
    | cons b t2 =>
      have hs' : (b :: t2).Pairwise mfLE := hs.tail
      have hlast : (a :: b :: t2).getLast? = (b :: t2).getLast? :=
        List.getLast?_cons_cons
      rcases List.mem_cons.mp hm with rfl | hm'
      · obtain ⟨last, hl, _⟩ := ih hs' b (List.mem_cons_self b t2)
        refine ⟨last, by rw [hlast, hl], ?_⟩
        have hmem : last ∈ b :: t2 := getLast?_mem_mf _ last hl
        exact (List.pairwise_cons.mp hs).1 last hmem
      · obtain ⟨last, hl, hle⟩ := ih hs' m2 hm'
        exact ⟨last, by rw [hlast, hl], hle⟩

/-- The `MigrationFile` descriptor a successful `Create` returns (see
`Handle.Create`): the bumped version with the two file descriptors, whose
`version` field is left at zero as in the source. -/
def createdMF (m : Handle) (env : Env) (name : String)
    (files : List MigrationFile) : MigrationFile :=
  { version := createVersion files env.now.format14
    upFile := some
      { path := m.migrationsPath
        fileName := toString (createVersion files env.now.format14) ++ "_" ++
          name.replace " " "_" ++ ".up." ++ env.filenameExtension
        version := 0
        name := name.replace " " "_"
        content := env.fileTemplate
        direction := .up }
    downFile := some
      { path := m.migrationsPath
        fileName := toString (createVersion files env.now.format14) ++ "_" ++
          name.replace " " "_" ++ ".down." ++ env.filenameExtension
        version := 0
        name := name.replace " " "_"
        content := env.fileTemplate
        direction := .down } }

/-- C8 (amended): `Create` computes its candidate from the clock's
14-digit decimal (`format14` is below `10^14` for in-range fields), bumps
it to latest + 1 (mod `2^64`) when the scanned directory's highest version
is not below it, and writes exactly one Up and one Down file (with
distinct names).  A later call whose scan sees a version at least as large
as the one this call produced yields a strictly greater version PROVIDED
no scanned version equals `2^64 - 1` — at that value the `uint64` bump
wraps to 0 (see the counterexample). -/
theorem create_spec (m : Handle) (env : Env) (name : String)
    (files : List MigrationFile) (vs : List Version)
    (hrd : env.readDir = .ok files) (hvs : env.drvVersions = .ok vs)
    (hw : ∀ s, env.writeRes s = none) :
    (∃ mfile, (m.Create env name).1 = .ok mfile
      ∧ mfile.version = createVersion files env.now.format14
      ∧ (∃ fu, mfile.upFile = some fu ∧ fu.direction = .up)
      ∧ (∃ fd, mfile.downFile = some fd ∧ fd.direction = .down))
  ∧ (m.Create env name).2.2 =
      [Event.fsScan, Event.drvVersionsCall,
        Event.fsWrite (toString (createVersion files env.now.format14) ++
          "_" ++ name.replace " " "_" ++ ".up." ++ env.filenameExtension),
        Event.fsWrite (toString (createVersion files env.now.format14) ++
          "_" ++ name.replace " " "_" ++ ".down." ++ env.filenameExtension)]
  ∧ (toString (createVersion files env.now.format14) ++ "_" ++
      name.replace " " "_" ++ ".up." ++ env.filenameExtension) ≠
    (toString (createVersion files env.now.format14) ++ "_" ++
      name.replace " " "_" ++ ".down." ++ env.filenameExtension)
  ∧ (env.now.year < 10000 → env.now.month < 100 → env.now.day < 100 →
      env.now.hour < 100 → env.now.min < 100 → env.now.sec < 100 →
      env.now.format14 < 10 ^ 14)
  ∧ (∀ (files2 : List MigrationFile) (c2 : Nat), files2.Pairwise mfLE →
      (∀ m2 ∈ files2, m2.version < 2 ^ 64 - 1) →
      (∃ m2 ∈ files2, createVersion files env.now.format14 ≤ m2.version) →
      createVersion files env.now.format14 < createVersion files2 c2) := by
  refine ⟨?_, ?_, ?_, ?_, ?_⟩
  · refine ⟨createdMF m env name files, ?_, rfl, ⟨_, rfl, rfl⟩,
      ⟨_, rfl, rfl⟩⟩
    simp only [Handle.Create, Handle.readFilesAndGetVersions, hrd, hvs, hw]
    rfl
  · simp only [Handle.Create, Handle.readFilesAndGetVersions, hrd, hvs, hw]
    rfl
  · intro hname
    have hlen := congrArg String.length hname
    simp only [String.length_append] at hlen
    have h4 : String.length ".up." = 4 := rfl
    have h6 : String.length ".down." = 6 := rfl
    rw [h4, h6] at hlen
    omega
  · intro h1 h2 h3 h4 h5 h6
    simp only [GoTime.format14]
    omega
  · intro files2 c2 hs hbound hex
    obtain ⟨m2, hm2, hle⟩ := hex
    obtain ⟨last, hl, hge⟩ := pairwise_getLast_ge files2 hs m2 hm2
    have hlastmem : last ∈ files2 := getLast?_mem_mf files2 last hl
    have hlast : last.version < 2 ^ 64 - 1 := hbound last hlastmem
    have hcv : createVersion files2 c2 =
        if last.version ≥ c2 then (last.version + 1) % 2 ^ 64 else c2 := by
      rw [createVersion, hl]
    rw [hcv]
    by_cases hg : last.version ≥ c2
    · rw [if_pos hg]
      have hpow : (2 : Nat) ^ 64 = 18446744073709551616 := by norm_num
      rw [hpow] at hlast ⊢
      norm_num at hlast
      rw [Nat.mod_eq_of_lt (Nat.succ_lt_succ hlast)]
      exact Nat.lt_succ_of_le (Nat.le_trans hle hge)
    · rw [if_neg hg]
      exact Nat.lt_of_le_of_lt (Nat.le_trans hle hge) (not_le.mp hg)

/-- The entry a second `Create` call's scan would contain after a first
call produced version 20240506070809. -/
def mf809 : MigrationFile :=
  { version := 20240506070809
    upFile := some fU1
    downFile := some fD1 }

/-- C8 witness: the theorem applied concretely — the first call (empty
directory) yields the clock version 20240506070809; a second call in the
same second, whose scan now contains that version, is bumped to
20240506070810. -/
theorem create_spec_witness :
    (envOK.readDir = .ok [] ∧ envOK.drvVersions = .ok [] ∧
      (∀ s, envOK.writeRes s = none))
  ∧ (∃ mfile, (freshH.Create envOK "add col").1 = .ok mfile
      ∧ mfile.version = createVersion [] envOK.now.format14
      ∧ (∃ fu, mfile.upFile = some fu ∧ fu.direction = .up)
      ∧ (∃ fd, mfile.downFile = some fd ∧ fd.direction = .down))
  ∧ createVersion [] envOK.now.format14 = 20240506070809
  ∧ (∀ (files2 : List MigrationFile) (c2 : Nat), files2.Pairwise mfLE →
      (∀ m2 ∈ files2, m2.version < 2 ^ 64 - 1) →
      (∃ m2 ∈ files2, createVersion [] envOK.now.format14 ≤ m2.version) →
      createVersion [] envOK.now.format14 < createVersion files2 c2)
  ∧ createVersion [mf809] envOK.now.format14 = 20240506070810 := by
  have h := create_spec freshH envOK "add col" [] [] rfl rfl (fun s => rfl)
  exact ⟨⟨rfl, rfl, fun s => rfl⟩, h.1, by decide, h.2.2.2.2, by decide⟩

/-- A directory entry at the top of the `uint64` range — its filename
`18446744073709551615_x.up.sql` passes the scanner's `ParseUint` bound. -/
def mfMax : MigrationFile :=
  { version := 2 ^ 64 - 1
    upFile := some fU1
    downFile := none }

/-- The entry the first wrapped `Create` call leaves on disk. -/
def mf0 : MigrationFile :=
  { version := 0
    upFile := some fU1
    downFile := some fD1 }

/-- The environment of the first `Create` call over a directory holding
only `mfMax`. -/
def envMax : Env := { envOK with readDir := .ok [mfMax] }

/-- C8 counterexample: the claim says the second of two `Create` calls on
the same directory always yields a strictly greater version.  With a
scanned version of `2^64 - 1`, the Go `uint64` bump `latest + 1` wraps to
0: the first call yields version 0, the second call (whose ascending scan
now holds versions 0 and `2^64 - 1`) bumps from the same latest and yields
0 again — not strictly greater, and the same two filenames as before. -/
theorem create_wrap_counterexample :
    createVersion [mfMax] envOK.now.format14 = 0
  ∧ createVersion [mf0, mfMax] envOK.now.format14 = 0
  ∧ ¬ (createVersion [mfMax] envOK.now.format14 <
        createVersion [mf0, mfMax] envOK.now.format14)
  ∧ (∃ mfile, (freshH.Create envMax "wrap").1 = .ok mfile
      ∧ mfile.version = 0) := by
  refine ⟨by decide, by decide, by decide, ⟨_, rfl, ?_⟩⟩
  decide

end Journey
